import Mathlib

/-!
# Verification of the schedule-reconciliation engine (`internal-ai.js`)

This file gives a shallow embedding of the reconciliation engine: the
string-similarity scorer (`_calculateSimilarity`, `_levenshteinDistance`),
the name matcher (`_findClosestMatch`), the name reconciler
(`_validateNames`), the four conflict-detection passes, and the
orchestrating `processImportedData`.  JavaScript strings are modelled as
`List Char`; the `number` produced by the similarity division is modelled
as `ℚ`; the nondeterministic synthetic-professional id
(`Date.now()` + `Math.random()`) is modelled by an explicit id-generator
parameter applied to a per-run creation counter.

Theorems at the end settle the frozen claims about the engine.
-/

/-- Convert a Lean string literal to the `List Char` model of JS strings. -/
def str (s : String) : List Char := s.toList

/-- Model of JS `String.prototype.toLowerCase` (per-character lowering). -/
def jsToLower (s : List Char) : List Char := s.map Char.toLower

/-- Model of JS `String.prototype.trim`: drop whitespace at both ends. -/
def jsTrim (s : List Char) : List Char :=
  ((s.dropWhile Char.isWhitespace).reverse.dropWhile Char.isWhitespace).reverse

/-- The test `isPrefixList small big` is true when `small` is a prefix of `big`. -/
def isPrefixList : List Char → List Char → Bool
  | [], _ => true
  | _ :: _, [] => false
  | a :: as, b :: bs => a == b && isPrefixList as bs

/-- The test `jsIncludes a b` models JS `a.includes(b)`: `b` occurs contiguously in `a`. -/
def jsIncludes (a b : List Char) : Bool :=
  match a with
  | [] => b.isEmpty
  | _ :: rest => isPrefixList b a || jsIncludes rest b

/-- One row step of the Levenshtein dynamic-programming table of
`_levenshteinDistance`: given the previous row (as a function of the column
index) and the row index `i` (so this computes row `i + 1`, whose character
from `str2` is `str2[i]`), produce the value at each column.  Column `0`
holds `i + 1` (`matrix[i] = [i]`); column `j + 1` compares `str2[i]` with
`str1[j]` and takes the diagonal on equality, else
`min(diag + 1, left + 1, up + 1)` exactly as in the source. -/
def levRowFun (str1 str2 : List Char) (i : Nat) (prev : Nat → Nat) : Nat → Nat
  | 0 => i + 1
  | j + 1 =>
      if str2.getD i ' ' = str1.getD j ' ' then
        prev j
      else
        min (prev j + 1) (min (levRowFun str1 str2 i prev j + 1) (prev (j + 1) + 1))

/-- Cell `matrix[i][j]` of the `_levenshteinDistance` table: row `0` is
`0, 1, ..., len(str1)`; row `i + 1` is computed from row `i` by
`levRowFun`. -/
def levCellFun (str1 str2 : List Char) : Nat → Nat → Nat
  | 0 => fun j => j
  | i + 1 => levRowFun str1 str2 i (levCellFun str1 str2 i)

/-- Embedding of `_levenshteinDistance(str1, str2)`: the bottom-right cell
`matrix[str2.length][str1.length]` of the dynamic-programming table. -/
def _levenshteinDistance (str1 str2 : List Char) : Nat :=
  levCellFun str1 str2 str2.length str1.length

/-- Embedding of `_calculateSimilarity(str1, str2)`: pick the longer and the
shorter string (ties resolved as in the source: `str1.length > str2.length ?
str1 : str2`), return `1.0` for two empty strings, else the exact rational
`(longer.length - editDistance) / longer.length`, built with `mkRat` so that
it evaluates inside the kernel; `mkRat a b` equals `a / b` at the nonzero
denominators used here. -/
def _calculateSimilarity (str1 str2 : List Char) : ℚ :=
  let longer := if str2.length < str1.length then str1 else str2
  let shorter := if str2.length < str1.length then str2 else str1
  if longer.length = 0 then 1
  else mkRat ((longer.length : Int) - (_levenshteinDistance longer shorter : Int)) longer.length

/-- The containment-or-similarity loop of `_findClosestMatch`: scan the
registry in order; for each entry first test containment in either
direction, then similarity `> 0.8` (the threshold written as the exact
rational `mkRat 4 5 = 0.8`); return the first entry passing either test. -/
def findLoop (nameLower : List Char) : List (List Char) → Option (List Char)
  | [] => none
  | registered :: rest =>
      if jsIncludes registered nameLower || jsIncludes nameLower registered then
        some registered
      else if mkRat 4 5 < _calculateSimilarity nameLower registered then
        some registered
      else
        findLoop nameLower rest

/-- Embedding of `_findClosestMatch(name, registeredList)`: normalize the
candidate, look for an exact match with `find`, then run the
containment/similarity loop over the registry. -/
def _findClosestMatch (name : List Char) (registeredList : List (List Char)) :
    Option (List Char) :=
  let nameLower := jsTrim (jsToLower name)
  match registeredList.find? (fun registered => registered == nameLower) with
  | some m => some m
  | none => findLoop nameLower registeredList

/-- Reference recursive definition of edit distance, following the
specification's description of `distance`: insertion, deletion and
substitution each cost 1; the distance to/from the empty string is the
other string's length. -/
def editDistRec : List Char → List Char → Nat
  | [], ys => ys.length
  | _ :: xs, [] => xs.length + 1
  | x :: xs, y :: ys =>
      min (editDistRec xs ys + (if x = y then 0 else 1))
        (min (editDistRec (x :: xs) ys + 1) (editDistRec xs (y :: ys) + 1))
termination_by xs ys => xs.length + ys.length
decreasing_by all_goals (simp only [List.length_cons]; omega)

theorem editDistRec_nil_left (ys : List Char) : editDistRec [] ys = ys.length := by
  simp [editDistRec]

theorem editDistRec_nil_right (xs : List Char) : editDistRec xs [] = xs.length := by
  cases xs <;> simp [editDistRec]

theorem editDistRec_cons_cons (x y : Char) (xs ys : List Char) :
    editDistRec (x :: xs) (y :: ys) =
      min (editDistRec xs ys + (if x = y then 0 else 1))
        (min (editDistRec (x :: xs) ys + 1) (editDistRec xs (y :: ys) + 1)) := by
  simp [editDistRec]

theorem editDistRec_comm : ∀ xs ys : List Char, editDistRec xs ys = editDistRec ys xs := by
  intro xs ys
  induction xs, ys using editDistRec.induct with
  | case1 ys => rw [editDistRec_nil_left, editDistRec_nil_right]
  | case2 x xs => rw [editDistRec_nil_left, editDistRec_nil_right]
  | case3 x xs y ys ih1 ih2 ih3 =>
      rw [editDistRec_cons_cons, editDistRec_cons_cons, ih1, ih2, ih3]
      have hc : (if x = y then 0 else 1) = (if y = x then 0 else 1) := by
        by_cases h : x = y
        · simp [h]
        · rw [if_neg h, if_neg (fun h' => h (Eq.symm h'))]
      rw [hc]
      omega

theorem editDistRec_length_le : ∀ xs ys : List Char, ys.length ≤ editDistRec xs ys + xs.length := by
  intro xs ys
  induction xs, ys using editDistRec.induct with
  | case1 ys => rw [editDistRec_nil_left]; omega
  | case2 x xs => simp
  | case3 x xs y ys ih1 ih2 ih3 =>
      rw [editDistRec_cons_cons]
      simp only [List.length_cons] at *
      generalize (if x = y then 0 else 1) = c
      omega

theorem editDistRec_le_max : ∀ xs ys : List Char, editDistRec xs ys ≤ max xs.length ys.length := by
  intro xs ys
  induction xs, ys using editDistRec.induct with
  | case1 ys => rw [editDistRec_nil_left]; omega
  | case2 x xs => rw [editDistRec_nil_right]; simp
  | case3 x xs y ys ih1 ih2 ih3 =>
      rw [editDistRec_cons_cons]
      simp only [List.length_cons] at *
      have hc : (if x = y then 0 else 1) ≤ 1 := by split <;> omega
      generalize (if x = y then 0 else 1) = c at hc
      omega

theorem editDistRec_self : ∀ xs : List Char, editDistRec xs xs = 0 := by
  intro xs
  induction xs with
  | nil => rw [editDistRec_nil_left]; rfl
  | cons x xs ih => rw [editDistRec_cons_cons]; simp [ih]

theorem editDistRec_le_cons_left :
    ∀ (ys xs : List Char) (x : Char), editDistRec xs ys ≤ editDistRec (x :: xs) ys + 1 := by
  intro ys
  induction ys with
  | nil =>
      intro xs x
      rw [editDistRec_nil_right, editDistRec_nil_right]
      simp only [List.length_cons]
      omega
  | cons y ys ih =>
      intro xs x
      cases xs with
      | nil =>
          have hL := editDistRec_length_le [x] ys
          rw [editDistRec_cons_cons x y [] ys, editDistRec_nil_left, editDistRec_nil_left]
          generalize (if x = y then 0 else 1) = c
          simp only [List.length_cons, List.length_nil] at *
          omega
      | cons a as =>
          have hIH := ih (a :: as) x
          have hL : editDistRec (a :: as) (y :: ys) ≤ editDistRec (a :: as) ys + 1 := by
            rw [editDistRec_cons_cons]; omega
          rw [editDistRec_cons_cons x y (a :: as) ys]
          generalize (if x = y then 0 else 1) = c
          omega

theorem editDistRec_le_cons_right :
    ∀ (xs ys : List Char) (y : Char), editDistRec xs ys ≤ editDistRec xs (y :: ys) + 1 := by
  intro xs ys y
  rw [editDistRec_comm xs ys, editDistRec_comm xs (y :: ys)]
  exact editDistRec_le_cons_left xs ys y

set_option maxHeartbeats 1600000 in
theorem editDistRec_snoc_aux :
    ∀ (n : Nat) (xs ys : List Char), xs.length + ys.length ≤ n → ∀ (x y : Char),
      editDistRec (xs ++ [x]) (ys ++ [y]) =
        min (editDistRec xs ys + (if x = y then 0 else 1))
          (min (editDistRec (xs ++ [x]) ys + 1) (editDistRec xs (ys ++ [y]) + 1)) := by
  intro n
  induction n with
  | zero =>
      intro xs ys h x y
      have hx : xs = [] := List.length_eq_zero.mp (by omega)
      have hy : ys = [] := List.length_eq_zero.mp (by omega)
      subst hx; subst hy
      simp only [List.nil_append]
      rw [editDistRec_cons_cons]
  | succ n ih =>
      intro xs ys h x y
      cases xs with
      | nil =>
          cases ys with
          | nil => simp only [List.nil_append]; rw [editDistRec_cons_cons]
          | cons b ys' =>
              have hn : ys'.length ≤ n := by
                simp only [List.length_cons, List.length_nil] at h; omega
              simp only [List.nil_append, List.cons_append]
              have ih1 := ih [] ys' (by simpa using hn) x y
              simp only [List.nil_append] at ih1
              rw [editDistRec_cons_cons x b [] (ys' ++ [y]), ih1,
                editDistRec_cons_cons x b [] ys', editDistRec_nil_left,
                editDistRec_nil_left, editDistRec_nil_left, editDistRec_nil_left]
              generalize (if x = b then 0 else 1) = cb
              generalize (if x = y then 0 else 1) = cy
              simp only [List.length_append, List.length_cons, List.length_nil]
              omega
      | cons a xs' =>
          cases ys with
          | nil =>
              have hn : xs'.length ≤ n := by
                simp only [List.length_cons, List.length_nil] at h; omega
              simp only [List.nil_append, List.cons_append]
              have ih1 := ih xs' [] (by simpa using hn) x y
              simp only [List.nil_append] at ih1
              rw [editDistRec_cons_cons a y (xs' ++ [x]) [], ih1,
                editDistRec_cons_cons a y xs' [], editDistRec_nil_right,
                editDistRec_nil_right, editDistRec_nil_right, editDistRec_nil_right]
              generalize (if a = y then 0 else 1) = ca
              generalize (if x = y then 0 else 1) = cy
              simp only [List.length_append, List.length_cons, List.length_nil]
              omega
          | cons b ys' =>
              have hsum : xs'.length + ys'.length + 2 ≤ n + 1 := by
                simp only [List.length_cons] at h; omega
              simp only [List.cons_append]
              have ih1 := ih xs' ys' (by omega) x y
              have ih2 := ih (a :: xs') ys' (by simp only [List.length_cons]; omega) x y
              simp only [List.cons_append] at ih2
              have ih3 := ih xs' (b :: ys') (by simp only [List.length_cons]; omega) x y
              simp only [List.cons_append] at ih3
              rw [editDistRec_cons_cons a b (xs' ++ [x]) (ys' ++ [y]), ih1, ih2, ih3,
                editDistRec_cons_cons a b xs' ys',
                editDistRec_cons_cons a b (xs' ++ [x]) ys',
                editDistRec_cons_cons a b xs' (ys' ++ [y])]
              generalize (if a = b then 0 else 1) = cab
              generalize (if x = y then 0 else 1) = cxy
              generalize editDistRec xs' ys' = p
              generalize editDistRec (a :: xs') ys' = q
              generalize editDistRec xs' (b :: ys') = r
              generalize editDistRec (xs' ++ [x]) ys' = t
              generalize editDistRec xs' (ys' ++ [y]) = u
              generalize editDistRec (a :: (xs' ++ [x])) ys' = v
              generalize editDistRec (a :: xs') (ys' ++ [y]) = w
              generalize editDistRec (xs' ++ [x]) (b :: ys') = z
              generalize editDistRec xs' (b :: (ys' ++ [y])) = zz
              clear ih ih1 ih2 ih3 h hsum
              have h1 : ∀ a b c : ℕ, a ⊓ b + c = (a + c) ⊓ (b + c) := fun a b c =>
                (Nat.add_min_add_right a b c).symm
              simp only [h1]
              apply le_antisymm <;> simp only [le_min_iff, min_le_iff] <;> and_intros <;> omega

theorem editDistRec_snoc (xs ys : List Char) (x y : Char) :
    editDistRec (xs ++ [x]) (ys ++ [y]) =
      min (editDistRec xs ys + (if x = y then 0 else 1))
        (min (editDistRec (xs ++ [x]) ys + 1) (editDistRec xs (ys ++ [y]) + 1)) :=
  editDistRec_snoc_aux (xs.length + ys.length) xs ys le_rfl x y

theorem editDistRec_reverse_aux :
    ∀ (n : Nat) (xs ys : List Char), xs.length + ys.length ≤ n →
      editDistRec xs.reverse ys.reverse = editDistRec xs ys := by
  intro n
  induction n with
  | zero =>
      intro xs ys h
      have hx : xs = [] := List.length_eq_zero.mp (by omega)
      have hy : ys = [] := List.length_eq_zero.mp (by omega)
      subst hx; subst hy; rfl
  | succ n ih =>
      intro xs ys h
      cases xs with
      | nil =>
          simp [editDistRec_nil_left, List.length_reverse]
      | cons a xs' =>
          cases ys with
          | nil => simp [editDistRec_nil_right, List.length_reverse]
          | cons b ys' =>
              simp only [List.length_cons] at h
              simp only [List.reverse_cons]
              rw [editDistRec_snoc xs'.reverse ys'.reverse a b]
              have h1 := ih xs' ys' (by omega)
              have h2 := ih (a :: xs') ys' (by simp only [List.length_cons]; omega)
              simp only [List.reverse_cons] at h2
              have h3 := ih xs' (b :: ys') (by simp only [List.length_cons]; omega)
              simp only [List.reverse_cons] at h3
              rw [h1, h2, h3, editDistRec_cons_cons a b xs' ys']

theorem editDistRec_reverse (xs ys : List Char) :
    editDistRec xs.reverse ys.reverse = editDistRec xs ys :=
  editDistRec_reverse_aux (xs.length + ys.length) xs ys le_rfl

theorem take_succ_reverse (l : List Char) :
    ∀ (j : Nat) (d : Char), j < l.length →
      (l.take (j + 1)).reverse = l.getD j d :: (l.take j).reverse := by
  induction l with
  | nil => intro j d h; simp at h
  | cons c cs ih =>
      intro j d h
      cases j with
      | zero => simp
      | succ j =>
          simp only [List.take_succ_cons, List.reverse_cons, List.getD_cons_succ]
          rw [ih j d (by simpa using h)]
          simp

theorem levCellFun_eq (s1 s2 : List Char) :
    ∀ i, i ≤ s2.length → ∀ j, j ≤ s1.length →
      levCellFun s1 s2 i j = editDistRec ((s1.take j).reverse) ((s2.take i).reverse) := by
  intro i
  induction i with
  | zero =>
      intro _ j hj
      show j = _
      rw [List.take_zero, List.reverse_nil, editDistRec_nil_right, List.length_reverse,
        List.length_take]
      omega
  | succ i ih =>
      intro hi j
      induction j with
      | zero =>
          intro _
          show i + 1 = _
          rw [List.take_zero, List.reverse_nil, editDistRec_nil_left, List.length_reverse,
            List.length_take]
          omega
      | succ j ihj =>
          intro hj
          have hjlt : j < s1.length := by omega
          have hilt : i < s2.length := by omega
          have hprev : levCellFun s1 s2 i j
              = editDistRec ((s1.take j).reverse) ((s2.take i).reverse) :=
            ih (by omega) j (by omega)
          have hprev1 : levCellFun s1 s2 i (j + 1)
              = editDistRec ((s1.take (j + 1)).reverse) ((s2.take i).reverse) :=
            ih (by omega) (j + 1) hj
          have hcur : levRowFun s1 s2 i (levCellFun s1 s2 i) j
              = editDistRec ((s1.take j).reverse) ((s2.take (i + 1)).reverse) :=
            ihj (by omega)
          rw [take_succ_reverse s1 j ' ' hjlt] at hprev1
          rw [take_succ_reverse s2 i ' ' hilt] at hcur
          show levRowFun s1 s2 i (levCellFun s1 s2 i) (j + 1) = _
          rw [take_succ_reverse s1 j ' ' hjlt, take_succ_reverse s2 i ' ' hilt,
            editDistRec_cons_cons]
          by_cases hxy : s2.getD i ' ' = s1.getD j ' '
          · rw [levRowFun, if_pos hxy, hprev, hxy, if_pos rfl]
            have hle1 := editDistRec_le_cons_left ((s2.take i).reverse)
              ((s1.take j).reverse) (s1.getD j ' ')
            have hle2 := editDistRec_le_cons_right ((s1.take j).reverse)
              ((s2.take i).reverse) (s1.getD j ' ')
            omega
          · rw [levRowFun, if_neg hxy, hprev, hprev1, hcur,
              if_neg (fun h => hxy (Eq.symm h))]
            omega

/-- The dynamic-programming `_levenshteinDistance` computes the reference
recursive edit distance. -/
theorem levenshtein_eq_editDistRec (s1 s2 : List Char) :
    _levenshteinDistance s1 s2 = editDistRec s1 s2 := by
  show levCellFun s1 s2 s2.length s1.length = _
  rw [levCellFun_eq s1 s2 s2.length le_rfl s1.length le_rfl, List.take_length,
    List.take_length, editDistRec_reverse]

theorem similarity_branch_nonneg (L S : List Char) (hSL : S.length ≤ L.length) :
    0 ≤ (if L.length = 0 then (1 : ℚ)
      else mkRat ((L.length : Int) - (_levenshteinDistance L S : Int)) L.length) := by
  split
  · norm_num
  · rw [Rat.mkRat_eq_div]
    apply div_nonneg _ (by positivity)
    have hd : _levenshteinDistance L S ≤ max L.length S.length := by
      rw [levenshtein_eq_editDistRec]; exact editDistRec_le_max L S
    have : (0 : Int) ≤ (L.length : Int) - (_levenshteinDistance L S : Int) := by omega
    exact_mod_cast this

theorem similarity_branch_le_one (L S : List Char) :
    (if L.length = 0 then (1 : ℚ)
      else mkRat ((L.length : Int) - (_levenshteinDistance L S : Int)) L.length) ≤ 1 := by
  split
  · norm_num
  · next h0 =>
    rw [Rat.mkRat_eq_div]
    rw [div_le_one (by positivity)]
    have : ((L.length : Int) - (_levenshteinDistance L S : Int)) ≤ (L.length : Int) := by omega
    exact_mod_cast this

theorem similarity_nonneg (a b : List Char) :
    0 ≤ _calculateSimilarity a b := by
  simp only [_calculateSimilarity]
  by_cases hc : b.length < a.length
  · simp only [if_pos hc]
    exact similarity_branch_nonneg a b (by omega)
  · simp only [if_neg hc]
    exact similarity_branch_nonneg b a (by omega)

theorem similarity_le_one (a b : List Char) : _calculateSimilarity a b ≤ 1 := by
  simp only [_calculateSimilarity]
  by_cases hc : b.length < a.length
  · simp only [if_pos hc]
    exact similarity_branch_le_one a b
  · simp only [if_neg hc]
    exact similarity_branch_le_one b a

theorem similarity_self (a : List Char) : _calculateSimilarity a a = 1 := by
  simp only [_calculateSimilarity]
  rw [if_neg (lt_irrefl a.length)]
  by_cases h0 : a.length = 0
  · rw [if_pos h0]
  · rw [if_neg h0]
    have hd : _levenshteinDistance a a = 0 := by
      rw [levenshtein_eq_editDistRec, editDistRec_self]
    rw [hd, Rat.mkRat_eq_div]
    push_cast
    rw [sub_zero]
    exact div_self (Nat.cast_ne_zero.mpr h0)


/-- First-occurrence deduplication with a fuel argument (structural, so that
it evaluates in the kernel).  With fuel `l.length` it models both
`[...new Set(l)]` and the first-insertion iteration order of the string-keyed
grouping objects used by the conflict passes. -/
def jsSetDedupAux {α : Type} [DecidableEq α] : Nat → List α → List α
  | 0, _ => []
  | _, [] => []
  | n + 1, x :: xs => x :: jsSetDedupAux n (xs.filter (fun y => y != x))

/-- First-occurrence deduplication, as performed by `new Set` and by
iteration over the keys of the grouping objects. -/
def jsSetDedup {α : Type} [DecidableEq α] (l : List α) : List α :=
  jsSetDedupAux l.length l

/-- Slot record of the imported room schedule.  Optional string fields are
modelled as `List Char` with `[]` for absent/empty (matching the JS
falsiness checks `!slot.professionalId`, `if (slot.patientName)`, ...). -/
structure Slot where
  id : List Char
  roomName : List Char
  dayOfWeek : List Char
  time : List Char
  appointmentDate : List Char
  isOccupied : Bool
  patientName : List Char
  professionalName : List Char
  professionalId : List Char
  linkedAppointmentId : List Char
  hasScheduleConflict : Bool
  hasValidationError : Bool
deriving DecidableEq, Inhabited

/-- Registry professional record. -/
structure Professional where
  id : List Char
  name : List Char
  specialty : List Char
  registration : List Char
  inactive : Bool
deriving DecidableEq

/-- Existing appointment record. -/
structure Appointment where
  id : List Char
  client : List Char
  professionalId : List Char
  date : List Char
  time : List Char
  type : List Char
deriving DecidableEq

/-- An entry of `autoCorrections`. -/
structure AutoCorrection where
  type : List Char
  original : List Char
  corrected : List Char
  location : List Char
  slotId : List Char
deriving DecidableEq

/-- An entry of `validationErrors`; `action := []` models the absent field. -/
structure ValidationError where
  type : List Char
  name : List Char
  location : List Char
  action : List Char
  slotId : List Char
deriving DecidableEq

/-- An entry of `suggestedChanges`. -/
structure ChangeRecord where
  type : List Char
  description : List Char
  location : List Char
  slotId : List Char
deriving DecidableEq

/-- An entry of `conflicts`, one constructor per conflict shape pushed by the
four detection passes. -/
inductive Conflict where
  | profMultipleRooms (professionalName rooms dayTime : List Char)
      (slots : List (List Char))
  | existingAppointment (professionalName patientName room dayTime : List Char)
      (conflictingAppointments : List (List Char × List Char × List Char))
      (slotId : List Char)
  | duplicateRoom (roomName dayTime patients professionals : List Char)
      (slots : List (List Char))
  | inactiveProfessional (professionalName patientName room dayTime : List Char)
      (slotId : List Char)
deriving DecidableEq

/-- The slot ids carried by a conflict record. -/
def Conflict.slotIds : Conflict → List (List Char)
  | .profMultipleRooms _ _ _ s => s
  | .existingAppointment _ _ _ _ _ sid => [sid]
  | .duplicateRoom _ _ _ _ s => s
  | .inactiveProfessional _ _ _ _ sid => [sid]

/-- The location string `${slot.roomName} - ${slot.dayOfWeek} ${slot.time}`. -/
def locOf (s : Slot) : List Char :=
  s.roomName ++ str " - " ++ s.dayOfWeek ++ str " " ++ s.time

/-- The day/time string `${slot.dayOfWeek} ${slot.time}`. -/
def dayTimeOf (s : Slot) : List Char := s.dayOfWeek ++ str " " ++ s.time

/-- The list-joining `join(', ')`. -/
def joinComma (l : List (List Char)) : List Char := List.intercalate (str ", ") l

/-- Mutable per-run state of `_validateNames` (plus the creation counter
driving the modelled synthetic-id generator). -/
structure VState where
  newProfs : List Professional
  autoCorr : List AutoCorrection
  valErrs : List ValidationError
  changes : List ChangeRecord
  counter : Nat
deriving DecidableEq

/-- Patient half of the `_validateNames` loop body for one occupied slot. -/
def patientStep (registeredPatients : List (List Char))
    (appointments : List Appointment) (st : VState) (s : Slot) : VState × Slot :=
  if s.patientName.isEmpty then (st, s) else
  if jsTrim (jsToLower s.patientName) ∈ registeredPatients then (st, s)
  else
    match _findClosestMatch (jsTrim (jsToLower s.patientName)) registeredPatients with
    | some closestMatch =>
        match appointments.find? (fun apt => jsTrim (jsToLower apt.client) == closestMatch) with
        | some originalCase =>
            let ac : AutoCorrection :=
              { type := str "Paciente", original := s.patientName,
                corrected := originalCase.client, location := locOf s, slotId := s.id }
            let ch : ChangeRecord :=
              { type := str "Correção de Nome de Paciente",
                description := str "Corrigir \"" ++ s.patientName ++ str "\" para \"" ++
                  originalCase.client ++ str "\"",
                location := locOf s, slotId := s.id }
            ({ st with autoCorr := st.autoCorr ++ [ac], changes := st.changes ++ [ch] },
              { s with patientName := originalCase.client })
        | none => (st, s)
    | none =>
        let ve : ValidationError :=
          { type := str "Paciente", name := s.patientName, location := locOf s,
            action := [], slotId := s.id }
        let ch : ChangeRecord :=
          { type := str "Erro de Validação",
            description := str "Paciente \"" ++ s.patientName ++
              str "\" não encontrado no cadastro",
            location := locOf s, slotId := s.id }
        ({ st with valErrs := st.valErrs ++ [ve], changes := st.changes ++ [ch] }, s)

/-- Professional half of the `_validateNames` loop body for one occupied
slot: skip registered names, skip names already in the new-professionals
list, auto-correct on a close match, otherwise create a synthetic
professional and point the slot at it. -/
def professionalStep (registeredProfessionals : List (List Char))
    (professionals : List Professional) (genId : Nat → List Char)
    (st : VState) (s : Slot) : VState × Slot :=
  if s.professionalName.isEmpty then (st, s) else
  if jsTrim (jsToLower s.professionalName) ∈ registeredProfessionals then (st, s)
  else if st.newProfs.any (fun p =>
    jsTrim (jsToLower p.name) == jsTrim (jsToLower s.professionalName)) then (st, s)
  else
    match _findClosestMatch (jsTrim (jsToLower s.professionalName))
      registeredProfessionals with
    | some closestMatch =>
        match professionals.find? (fun p => jsTrim (jsToLower p.name) == closestMatch) with
        | some originalProf =>
            let ac : AutoCorrection :=
              { type := str "Profissional", original := s.professionalName,
                corrected := originalProf.name, location := locOf s, slotId := s.id }
            let ch : ChangeRecord :=
              { type := str "Correção de Nome de Profissional",
                description := str "Corrigir \"" ++ s.professionalName ++
                  str "\" para \"" ++ originalProf.name ++ str "\"",
                location := locOf s, slotId := s.id }
            let s2 : Slot :=
              { s with professionalName := originalProf.name, professionalId := originalProf.id }
            ({ st with autoCorr := st.autoCorr ++ [ac], changes := st.changes ++ [ch] }, s2)
        | none => (st, s)
    | none =>
        let newProfessional : Professional :=
          { id := genId st.counter, name := s.professionalName,
            specialty := str "Importado - IA", registration := [], inactive := false }
        let ve : ValidationError :=
          { type := str "Profissional", name := s.professionalName, location := locOf s,
            action := str "Novo profissional será criado", slotId := s.id }
        let ch : ChangeRecord :=
          { type := str "Novo Profissional",
            description := str "Criar novo profissional \"" ++
              s.professionalName ++ str "\"",
            location := locOf s, slotId := s.id }
        let st2 : VState :=
          { st with
              newProfs := st.newProfs ++ [newProfessional]
              counter := st.counter + 1
              valErrs := st.valErrs ++ [ve]
              changes := st.changes ++ [ch] }
        (st2, { s with professionalId := newProfessional.id })

/-- The `_validateNames` loop body for one slot: unoccupied slots are skipped,
occupied slots get the patient then the professional treatment. -/
def processSlot (registeredPatients registeredProfessionals : List (List Char))
    (professionals : List Professional) (appointments : List Appointment)
    (genId : Nat → List Char) (st : VState) (s : Slot) : VState × Slot :=
  if s.isOccupied then
    let ps := patientStep registeredPatients appointments st s
    professionalStep registeredProfessionals professionals genId ps.1 ps.2
  else (st, s)

/-- The `_validateNames` iteration over the whole schedule, threading the
mutable state slot by slot and rebuilding the (mutated) schedule. -/
def validateSlots (registeredPatients registeredProfessionals : List (List Char))
    (professionals : List Professional) (appointments : List Appointment)
    (genId : Nat → List Char) : VState → List Slot → VState × List Slot
  | st, [] => (st, [])
  | st, s :: rest =>
      let ps := processSlot registeredPatients registeredProfessionals professionals
        appointments genId st s
      let rest' := validateSlots registeredPatients registeredProfessionals professionals
        appointments genId ps.1 rest
      (rest'.1, ps.2 :: rest'.2)

/-- Eligibility for the professional-keyed passes:
`slot.isOccupied && slot.professionalId` (string falsiness = emptiness). -/
def elig1 (s : Slot) : Bool := s.isOccupied && !s.professionalId.isEmpty

/-- The composite key `${a}_${b}_${c}`. -/
def key3 (a b c : List Char) : List Char := a ++ str "_" ++ b ++ str "_" ++ c

/-- The double-booking grouping key `${professionalId}_${appointmentDate}_${time}`. -/
def profKey (s : Slot) : List Char := key3 s.professionalId s.appointmentDate s.time

/-- The duplicate-room grouping key `${roomName}_${dayOfWeek}_${time}`. -/
def roomKey (s : Slot) : List Char := key3 s.roomName s.dayOfWeek s.time

/-- The group of eligible slots whose professional key equals `k`
(in schedule order, exactly as pushed into `slotsByProfDayTime[k]`). -/
def profGroup (sched : List Slot) (k : List Char) : List Slot :=
  (sched.filter elig1).filter (fun s => profKey s == k)

/-- Pass 1 conflicts (professional double-booking): one conflict per
grouping key whose group has more than one member. -/
def pass1Conflicts (sched : List Slot) : List Conflict :=
  (jsSetDedup ((sched.filter elig1).map profKey)).filterMap (fun k =>
    let g := profGroup sched k
    if 1 < g.length then
      some (.profMultipleRooms (g.headD default).professionalName
        (joinComma (g.map Slot.roomName)) (dayTimeOf (g.headD default)) (g.map Slot.id))
    else none)

/-- Pass 1 suggested changes: one per member slot of each conflicting group. -/
def pass1Changes (sched : List Slot) : List ChangeRecord :=
  (jsSetDedup ((sched.filter elig1).map profKey)).flatMap (fun k =>
    let g := profGroup sched k
    if 1 < g.length then
      g.map (fun s =>
        { type := str "Conflito de Horário"
          description := str "Profissional \"" ++ (g.headD default).professionalName ++
            str "\" agendado em múltiplas salas: " ++ joinComma (g.map Slot.roomName)
          location := dayTimeOf (g.headD default)
          slotId := s.id })
    else [])

/-- Pass 1 marking of one slot: `hasScheduleConflict := true` exactly when
the slot is eligible and its group has more than one member. -/
def pass1Mark (sched : List Slot) (s : Slot) : Slot :=
  if elig1 s ∧ 1 < (profGroup sched (profKey s)).length then
    { s with hasScheduleConflict := true }
  else s

/-- Schedule after pass 1 marking. -/
def pass1Sched (sched : List Slot) : List Slot := sched.map (pass1Mark sched)

/-- The three-field appointment match of pass 2:
same professional, same date, same time. -/
def aptMatches3 (s : Slot) (apt : Appointment) : Bool :=
  apt.professionalId == s.professionalId && apt.date == s.appointmentDate &&
    apt.time == s.time

/-- The linked-appointment exclusion of pass 2:
`!slot.linkedAppointmentId || apt.id !== slot.linkedAppointmentId`. -/
def aptLinkOk (s : Slot) (apt : Appointment) : Bool :=
  s.linkedAppointmentId.isEmpty || apt.id != s.linkedAppointmentId

/-- The `conflictingAppointments` list computed by pass 2 for one slot. -/
def collisionFilter (appointments : List Appointment) (s : Slot) : List Appointment :=
  appointments.filter (fun apt => aptMatches3 s apt && aptLinkOk s apt)

/-- Pass 2 conflict for one slot, if any. -/
def pass2ConflictOf (appointments : List Appointment) (s : Slot) : Option Conflict :=
  if elig1 s ∧ ¬(collisionFilter appointments s).isEmpty then
    some (.existingAppointment s.professionalName s.patientName s.roomName (dayTimeOf s)
      ((collisionFilter appointments s).map (fun apt => (apt.id, apt.client, apt.type)))
      s.id)
  else none

/-- Pass 2 suggested change for one slot, if any. -/
def pass2ChangeOf (appointments : List Appointment) (s : Slot) : Option ChangeRecord :=
  if elig1 s ∧ ¬(collisionFilter appointments s).isEmpty then
    some { type := str "Conflito com Agendamento"
           description := str "Profissional \"" ++ s.professionalName ++
             str "\" já tem agendamento com \"" ++
             joinComma ((collisionFilter appointments s).map Appointment.client) ++ str "\""
           location := locOf s
           slotId := s.id }
  else none

/-- Pass 2 marking of one slot. -/
def pass2Mark (appointments : List Appointment) (s : Slot) : Slot :=
  if elig1 s ∧ ¬(collisionFilter appointments s).isEmpty then
    { s with hasScheduleConflict := true }
  else s

/-- All pass 2 conflicts, in schedule order. -/
def pass2Conflicts (appointments : List Appointment) (sched : List Slot) : List Conflict :=
  sched.filterMap (pass2ConflictOf appointments)

/-- All pass 2 suggested changes, in schedule order. -/
def pass2Changes (appointments : List Appointment) (sched : List Slot) : List ChangeRecord :=
  sched.filterMap (pass2ChangeOf appointments)

/-- Schedule after pass 2 marking. -/
def pass2Sched (appointments : List Appointment) (sched : List Slot) : List Slot :=
  sched.map (pass2Mark appointments)

/-- The group of occupied slots whose room key equals `k`. -/
def roomGroup (sched : List Slot) (k : List Char) : List Slot :=
  (sched.filter Slot.isOccupied).filter (fun s => roomKey s == k)

/-- Pass 3 conflicts (duplicate room booking). -/
def pass3Conflicts (sched : List Slot) : List Conflict :=
  (jsSetDedup ((sched.filter Slot.isOccupied).map roomKey)).filterMap (fun k =>
    let g := roomGroup sched k
    if 1 < g.length then
      some (.duplicateRoom (g.headD default).roomName (dayTimeOf (g.headD default))
        (joinComma ((g.map Slot.patientName).filter (fun x => !x.isEmpty)))
        (joinComma ((g.map Slot.professionalName).filter (fun x => !x.isEmpty)))
        (g.map Slot.id))
    else none)

/-- Pass 3 suggested changes. -/
def pass3Changes (sched : List Slot) : List ChangeRecord :=
  (jsSetDedup ((sched.filter Slot.isOccupied).map roomKey)).flatMap (fun k =>
    let g := roomGroup sched k
    if 1 < g.length then
      g.map (fun s =>
        { type := str "Sala Duplicada"
          description := str "Sala \"" ++ (g.headD default).roomName ++
            str "\" com múltiplos agendamentos no mesmo horário"
          location := dayTimeOf (g.headD default)
          slotId := s.id })
    else [])

/-- Pass 3 marking of one slot. -/
def pass3Mark (sched : List Slot) (s : Slot) : Slot :=
  if s.isOccupied ∧ 1 < (roomGroup sched (roomKey s)).length then
    { s with hasScheduleConflict := true }
  else s

/-- Schedule after pass 3 marking. -/
def pass3Sched (sched : List Slot) : List Slot := sched.map (pass3Mark sched)

/-- Pass 4 registry lookup: `professionals.find(p => p.id === slot.professionalId)`
for occupied slots with a professional id. -/
def pass4Find (professionals : List Professional) (s : Slot) : Option Professional :=
  if elig1 s then professionals.find? (fun p => p.id == s.professionalId) else none

/-- Whether pass 4 flags the slot: the found professional is inactive. -/
def pass4Hit (professionals : List Professional) (s : Slot) : Bool :=
  match pass4Find professionals s with
  | some p => p.inactive
  | none => false

/-- Pass 4 conflict for one slot, if any. -/
def pass4ConflictOf (professionals : List Professional) (s : Slot) : Option Conflict :=
  match pass4Find professionals s with
  | some p =>
      if p.inactive then
        some (.inactiveProfessional p.name s.patientName s.roomName (dayTimeOf s) s.id)
      else none
  | none => none

/-- Pass 4 suggested change for one slot, if any. -/
def pass4ChangeOf (professionals : List Professional) (s : Slot) : Option ChangeRecord :=
  match pass4Find professionals s with
  | some p =>
      if p.inactive then
        some { type := str "Profissional Inativo"
               description := str "Profissional \"" ++ p.name ++ str "\" está inativo"
               location := locOf s
               slotId := s.id }
      else none
  | none => none

/-- Pass 4 marking of one slot: sets `hasValidationError` (never
`hasScheduleConflict`). -/
def pass4Mark (professionals : List Professional) (s : Slot) : Slot :=
  if pass4Hit professionals s then { s with hasValidationError := true } else s

/-- All pass 4 conflicts. -/
def pass4Conflicts (professionals : List Professional) (sched : List Slot) : List Conflict :=
  sched.filterMap (pass4ConflictOf professionals)

/-- All pass 4 suggested changes. -/
def pass4Changes (professionals : List Professional) (sched : List Slot) : List ChangeRecord :=
  sched.filterMap (pass4ChangeOf professionals)

/-- Schedule after pass 4 marking. -/
def pass4Sched (professionals : List Professional) (sched : List Slot) : List Slot :=
  sched.map (pass4Mark professionals)

/-- The `roomImportData` argument of `processImportedData`. -/
structure RoomImportData where
  schedule : List Slot
  newProfessionals : List Professional
  updatedAppointments : List Appointment
deriving DecidableEq

/-- The object returned by `processImportedData` (`processedData` flattened
into the last three fields). -/
structure RunResult where
  suggestedChanges : List ChangeRecord
  conflicts : List Conflict
  validationErrors : List ValidationError
  autoCorrections : List AutoCorrection
  schedule : List Slot
  newProfessionals : List Professional
  updatedAppointments : List Appointment
deriving DecidableEq

/-- The `registeredPatients` list: deduplicated, lowercased/trimmed client names. -/
def registeredPatientsOf (appointments : List Appointment) : List (List Char) :=
  jsSetDedup (appointments.map (fun apt => jsTrim (jsToLower apt.client)))

/-- The `registeredProfessionals` list: lowercased/trimmed registry names. -/
def registeredProfessionalsOf (professionals : List Professional) : List (List Char) :=
  professionals.map (fun p => jsTrim (jsToLower p.name))

/-- The whole `_validateNames` run: state after all slots plus the mutated
schedule.  The initial state holds the import's `newProfessionals` list and a
zero creation counter. -/
def validateOut (genId : Nat → List Char) (d : RoomImportData)
    (professionals : List Professional) (appointments : List Appointment) :
    VState × List Slot :=
  validateSlots (registeredPatientsOf appointments)
    (registeredProfessionalsOf professionals) professionals appointments genId
    { newProfs := d.newProfessionals, autoCorr := [], valErrs := [], changes := [],
      counter := 0 }
    d.schedule

/-- Schedule after `_validateNames`. -/
def sched1Of (genId : Nat → List Char) (d : RoomImportData)
    (professionals : List Professional) (appointments : List Appointment) : List Slot :=
  (validateOut genId d professionals appointments).2

/-- Schedule after pass 1 (professional double-booking marking). -/
def sched2Of (genId : Nat → List Char) (d : RoomImportData)
    (professionals : List Professional) (appointments : List Appointment) : List Slot :=
  pass1Sched (sched1Of genId d professionals appointments)

/-- Schedule after pass 2 (existing-appointment collision marking). -/
def sched3Of (genId : Nat → List Char) (d : RoomImportData)
    (professionals : List Professional) (appointments : List Appointment) : List Slot :=
  pass2Sched appointments (sched2Of genId d professionals appointments)

/-- Schedule after pass 3 (duplicate-room marking). -/
def sched4Of (genId : Nat → List Char) (d : RoomImportData)
    (professionals : List Professional) (appointments : List Appointment) : List Slot :=
  pass3Sched (sched3Of genId d professionals appointments)

/-- Schedule after pass 4 (inactive-professional marking): the final
`processedData.schedule`. -/
def sched5Of (genId : Nat → List Char) (d : RoomImportData)
    (professionals : List Professional) (appointments : List Appointment) : List Slot :=
  pass4Sched professionals (sched4Of genId d professionals appointments)

/-- Embedding of `processImportedData(roomImportData, professionals,
appointments)`: name validation followed by the four conflict passes in
fixed order, accumulating the four output lists in push order. -/
def processImportedData (genId : Nat → List Char) (d : RoomImportData)
    (professionals : List Professional) (appointments : List Appointment) : RunResult :=
  let v := validateOut genId d professionals appointments
  let s1 := sched1Of genId d professionals appointments
  let s2 := sched2Of genId d professionals appointments
  let s3 := sched3Of genId d professionals appointments
  let s4 := sched4Of genId d professionals appointments
  { suggestedChanges := v.1.changes ++ pass1Changes s1 ++ pass2Changes appointments s2 ++
      pass3Changes s3 ++ pass4Changes professionals s4
    conflicts := pass1Conflicts s1 ++ pass2Conflicts appointments s2 ++
      pass3Conflicts s3 ++ pass4Conflicts professionals s4
    validationErrors := v.1.valErrs
    autoCorrections := v.1.autoCorr
    schedule := sched5Of genId d professionals appointments
    newProfessionals := v.1.newProfs
    updatedAppointments := d.updatedAppointments }

/-- The source's similarity threshold `0.8`, written as an exact rational. -/
theorem mkRat_four_five : (mkRat 4 5 : ℚ) = 0.8 := by
  norm_num [Rat.mkRat_eq_div]

/-- The containment/similarity loop returns the first entry passing either
test, skipping entries that pass neither. -/
theorem findLoop_skips (nl r : List Char) (pre post : List (List Char))
    (hpre : ∀ e ∈ pre, jsIncludes e nl = false ∧ jsIncludes nl e = false ∧
      _calculateSimilarity nl e ≤ 0.8)
    (hr : jsIncludes r nl = true ∨ jsIncludes nl r = true ∨
      (0.8 : ℚ) < _calculateSimilarity nl r) :
    findLoop nl (pre ++ r :: post) = some r := by
  induction pre with
  | nil =>
      simp only [List.nil_append]
      unfold findLoop
      by_cases hb : (jsIncludes r nl || jsIncludes nl r) = true
      · rw [if_pos hb]
      · rw [if_neg hb]
        have hsim : mkRat 4 5 < _calculateSimilarity nl r := by
          rw [mkRat_four_five]
          rcases hr with h | h | h
          · exact absurd (by rw [h]; simp) hb
          · exact absurd (by rw [h]; simp) hb
          · exact h
        rw [if_pos hsim]
  | cons e pre' ih =>
      have he := hpre e (List.mem_cons_self e pre')
      simp only [List.cons_append]
      unfold findLoop
      rw [he.1, he.2.1]
      have hns : ¬ (mkRat 4 5 < _calculateSimilarity nl e) := by
        rw [mkRat_four_five]
        exact not_lt.mpr he.2.2
      rw [if_neg (by simp), if_neg hns]
      exact ih (fun x hx => hpre x (List.mem_cons_of_mem e hx))

/-- When no registry entry equals the normalized candidate, the exact-match
pass fails and `_findClosestMatch` reduces to the loop. -/
theorem findClosestMatch_eq_loop (name : List Char) (registeredList : List (List Char))
    (hexact : ∀ e ∈ registeredList, e ≠ jsTrim (jsToLower name)) :
    _findClosestMatch name registeredList
      = findLoop (jsTrim (jsToLower name)) registeredList := by
  have hfind : registeredList.find? (fun e => e == jsTrim (jsToLower name)) = none := by
    rw [List.find?_eq_none]
    intro x hx
    simpa using hexact x hx
  simp only [_findClosestMatch]
  rw [hfind]

/-- C6: `_levenshteinDistance` computes the classic edit distance — it agrees
with the reference recursive definition `editDistRec` (minimum number of
unit-cost insertions, deletions and substitutions) on all strings. -/
theorem claim6_levenshtein_is_edit_distance (a b : List Char) :
    _levenshteinDistance a b = editDistRec a b :=
  levenshtein_eq_editDistRec a b

/-- C7: similarity lies in `[0, 1]`, is `1` on equal strings, and is `1` on
two empty strings. -/
theorem claim7_similarity_bounds (a b : List Char) :
    0 ≤ _calculateSimilarity a b ∧ _calculateSimilarity a b ≤ 1 ∧
      _calculateSimilarity a a = 1 ∧ _calculateSimilarity [] [] = 1 :=
  ⟨similarity_nonneg a b, similarity_le_one a b, similarity_self a, similarity_self []⟩

/-- C5: with a one-entry registry that matches neither exactly nor by
containment, the similarity rule uses strict `>` at `0.8`: a similarity of
exactly `0.8` yields no match, a similarity above `0.8` yields the entry. -/
theorem claim5_threshold_strict (name r : List Char)
    (hne : r ≠ jsTrim (jsToLower name))
    (hc1 : jsIncludes r (jsTrim (jsToLower name)) = false)
    (hc2 : jsIncludes (jsTrim (jsToLower name)) r = false) :
    (_calculateSimilarity (jsTrim (jsToLower name)) r = 0.8 →
      _findClosestMatch name [r] = none) ∧
    ((0.8 : ℚ) < _calculateSimilarity (jsTrim (jsToLower name)) r →
      _findClosestMatch name [r] = some r) := by
  have hloop : _findClosestMatch name [r] = findLoop (jsTrim (jsToLower name)) [r] :=
    findClosestMatch_eq_loop name [r]
      (by intro e he; rw [List.mem_singleton] at he; rw [he]; exact hne)
  constructor
  · intro h08
    rw [hloop]
    unfold findLoop
    rw [hc1, hc2, if_neg (by simp), mkRat_four_five, h08, if_neg (lt_irrefl (0.8 : ℚ))]
    rfl
  · intro hgt
    rw [hloop]
    exact findLoop_skips (jsTrim (jsToLower name)) r [] [] (by intro e he; simp at he)
      (Or.inr (Or.inr hgt))

/-- C5 witness: candidate `"abcde"` against registry `["abcdz"]` has
similarity exactly `0.8` (distance 1 over length 5) and is not matched. -/
theorem claim5_witness : _findClosestMatch (str "abcde") [str "abcdz"] = none :=
  (claim5_threshold_strict (str "abcde") (str "abcdz") (by decide) (by decide)
      (by decide)).1
    (by rw [show (0.8 : ℚ) = mkRat 4 5 from mkRat_four_five.symm]; decide)

/-- C2 counterexample: in `_findClosestMatch("abcdef", ["abcdeg", "abcdefxyz"])`
the entry at index 1 contains the candidate while the entry at index 0 is
related only by similarity `> 0.8` (distance 1 over length 6), yet the
function returns the index-0 entry — containment is NOT a separate pass that
precedes all similarity checks, contradicting the claim that entry `j`
(containment) would be returned over an earlier entry `i` (similarity). -/
theorem claim2_counterexample :
    jsIncludes (str "abcdefxyz") (str "abcdef") = true ∧
    jsIncludes (str "abcdeg") (str "abcdef") = false ∧
    jsIncludes (str "abcdef") (str "abcdeg") = false ∧
    str "abcdeg" ≠ str "abcdef" ∧
    (0.8 : ℚ) < _calculateSimilarity (str "abcdef") (str "abcdeg") ∧
    _findClosestMatch (str "abcdef") [str "abcdeg", str "abcdefxyz"]
      = some (str "abcdeg") := by
  refine ⟨by decide, by decide, by decide, by decide, ?_, by decide⟩
  rw [show (0.8 : ℚ) = mkRat 4 5 from mkRat_four_five.symm]
  decide

/-- C2 amended: exact equality is a separate first pass over the registry;
containment and similarity are then tested per entry in a single ordered
scan (containment first, then similarity `> 0.80` on the same entry), and
the first entry passing either test is returned.  In particular an earlier
entry matched by similarity wins over a later entry matched by
containment. -/
theorem claim2_amended (name r : List Char) (pre post : List (List Char))
    (hexact : ∀ e ∈ pre ++ r :: post, e ≠ jsTrim (jsToLower name))
    (hpre : ∀ e ∈ pre, jsIncludes e (jsTrim (jsToLower name)) = false ∧
      jsIncludes (jsTrim (jsToLower name)) e = false ∧
      _calculateSimilarity (jsTrim (jsToLower name)) e ≤ 0.8)
    (hr : jsIncludes r (jsTrim (jsToLower name)) = true ∨
      jsIncludes (jsTrim (jsToLower name)) r = true ∨
      (0.8 : ℚ) < _calculateSimilarity (jsTrim (jsToLower name)) r) :
    _findClosestMatch name (pre ++ r :: post) = some r := by
  rw [findClosestMatch_eq_loop name (pre ++ r :: post) hexact]
  exact findLoop_skips (jsTrim (jsToLower name)) r pre post hpre hr

/-- C2 amended witness: the first entry fails both tests, the second
contains the candidate and is returned. -/
theorem claim2_amended_witness :
    _findClosestMatch (str "abcdef") [str "qqq", str "xxabcdefyy"]
      = some (str "xxabcdefyy") :=
  claim2_amended (str "abcdef") (str "xxabcdefyy") [str "qqq"] []
    (by decide)
    (by rw [show (0.8 : ℚ) = mkRat 4 5 from mkRat_four_five.symm]; decide)
    (Or.inl (by decide))

/-- Underscore-free prefixes can be cancelled against the first underscore
of a concatenated key. -/
theorem und_prefix_inj :
    ∀ (a a' rest rest' : List Char), ('_' : Char) ∉ a → ('_' : Char) ∉ a' →
      a ++ '_' :: rest = a' ++ '_' :: rest' → a = a' ∧ rest = rest' := by
  intro a
  induction a with
  | nil =>
      intro a' rest rest' _ ha' h
      cases a' with
      | nil => simpa using h
      | cons c cs =>
          simp only [List.nil_append, List.cons_append, List.cons.injEq] at h
          exact absurd (h.1 ▸ List.mem_cons_self c cs) ha'
  | cons c cs ih =>
      intro a' rest rest' ha ha' h
      cases a' with
      | nil =>
          simp only [List.cons_append, List.nil_append, List.cons.injEq] at h
          exact absurd (h.1.symm ▸ List.mem_cons_self c cs) ha
      | cons c' cs' =>
          simp only [List.cons_append, List.cons.injEq] at h
          have hcs : ('_' : Char) ∉ cs := fun hm => ha (List.mem_cons_of_mem c hm)
          have hcs' : ('_' : Char) ∉ cs' := fun hm => ha' (List.mem_cons_of_mem c' hm)
          obtain ⟨he1, he2⟩ := ih cs' rest rest' hcs hcs' h.2
          exact ⟨by rw [h.1, he1], he2⟩

/-- Injectivity of the composite key `${a}_${b}_${c}` on underscore-free
components. -/
theorem key3_inj (a b c a' b' c' : List Char)
    (ha : ('_' : Char) ∉ a) (hb : ('_' : Char) ∉ b)
    (ha' : ('_' : Char) ∉ a') (hb' : ('_' : Char) ∉ b')
    (h : key3 a b c = key3 a' b' c') : a = a' ∧ b = b' ∧ c = c' := by
  unfold key3 str at h
  simp only [List.append_assoc, String.toList] at h
  have h1 : a ++ '_' :: (b ++ '_' :: c) = a' ++ '_' :: (b' ++ '_' :: c') := by
    simpa using h
  obtain ⟨e1, e2⟩ := und_prefix_inj a a' (b ++ '_' :: c) (b' ++ '_' :: c') ha ha' h1
  obtain ⟨e3, e4⟩ := und_prefix_inj b b' c c' hb hb' e2
  exact ⟨e1, e3, e4⟩

/-- C10: when the key fields are underscore-free, the concatenated grouping
keys of the double-booking pass and of the duplicate-room pass are
injective: two slots get the same `profKey` (resp. `roomKey`) exactly when
they agree on (professionalId, appointmentDate, time) (resp. (roomName,
dayOfWeek, time)); hence no group — and so no conflict — mixes slots that
differ on a component. -/
theorem claim10_grouping_keys_injective (s t : Slot)
    (h1 : ('_' : Char) ∉ s.professionalId) (h2 : ('_' : Char) ∉ s.appointmentDate)
    (h3 : ('_' : Char) ∉ s.roomName) (h4 : ('_' : Char) ∉ s.dayOfWeek)
    (h5 : ('_' : Char) ∉ t.professionalId) (h6 : ('_' : Char) ∉ t.appointmentDate)
    (h7 : ('_' : Char) ∉ t.roomName) (h8 : ('_' : Char) ∉ t.dayOfWeek) :
    (profKey s = profKey t ↔
      s.professionalId = t.professionalId ∧ s.appointmentDate = t.appointmentDate ∧
        s.time = t.time) ∧
    (roomKey s = roomKey t ↔
      s.roomName = t.roomName ∧ s.dayOfWeek = t.dayOfWeek ∧ s.time = t.time) := by
  constructor
  · constructor
    · intro h
      exact key3_inj _ _ _ _ _ _ h1 h2 h5 h6 h
    · intro ⟨e1, e2, e3⟩
      unfold profKey key3
      rw [e1, e2, e3]
  · constructor
    · intro h
      exact key3_inj _ _ _ _ _ _ h3 h4 h7 h8 h
    · intro ⟨e1, e2, e3⟩
      unfold roomKey key3
      rw [e1, e2, e3]

/-- A concrete underscore-free slot used by witnesses. -/
def wSlotA : Slot :=
  { id := str "s1", roomName := str "r1", dayOfWeek := str "seg", time := str "08:00",
    appointmentDate := str "2024-01-01", isOccupied := true, patientName := [],
    professionalName := str "ana", professionalId := str "p1",
    linkedAppointmentId := [], hasScheduleConflict := false,
    hasValidationError := false }

/-- A second concrete slot: same professional key fields, different room. -/
def wSlotB : Slot := { wSlotA with id := str "s2", roomName := str "r2" }

/-- C10 witness: two concrete underscore-free slots agreeing on the
professional key fields (equal `profKey`) but differing on the room name
(distinct `roomKey`). -/
theorem claim10_witness : profKey wSlotA = profKey wSlotB ∧ ¬ roomKey wSlotA = roomKey wSlotB := by
  constructor
  · exact ((claim10_grouping_keys_injective wSlotA wSlotB (by decide) (by decide) (by decide)
      (by decide) (by decide) (by decide) (by decide) (by decide)).1).2
      (by exact ⟨rfl, rfl, rfl⟩)
  · intro h
    have hcomp := ((claim10_grouping_keys_injective wSlotA wSlotB (by decide) (by decide)
      (by decide) (by decide) (by decide) (by decide) (by decide) (by decide)).2).1 h
    exact absurd hcomp.1 (by decide)

/-- Filtering by a conjunction filters sequentially. -/
theorem filter_and_eq {α : Type} (p q : α → Bool) (l : List α) :
    l.filter (fun a => p a && q a) = (l.filter p).filter q := by
  induction l with
  | nil => rfl
  | cons x xs ih =>
      by_cases hp : p x
      · by_cases hq : q x
        · simp [List.filter_cons, hp, hq, ih]
        · simp [List.filter_cons, hp, hq, ih]
      · simp [List.filter_cons, hp, ih]

/-- C4: an occupied slot with a professional id whose (professionalId, date,
time) matches exactly one existing appointment, and whose
`linkedAppointmentId` equals that appointment's (non-empty) id, produces no
existing-appointment-collision conflict and no change record, and the
collision pass leaves the slot unchanged (in particular its
`hasScheduleConflict` flag). -/
theorem claim4_linked_appointment_excluded (appointments : List Appointment)
    (s : Slot) (apt : Appointment)
    (h3 : appointments.filter (fun a => aptMatches3 s a) = [apt])
    (h4 : s.linkedAppointmentId = apt.id) (h5 : apt.id ≠ []) :
    pass2ConflictOf appointments s = none ∧ pass2ChangeOf appointments s = none ∧
      pass2Mark appointments s = s := by
  have hlink : aptLinkOk s apt = false := by
    unfold aptLinkOk
    rw [h4]
    have h1 : apt.id.isEmpty = false := by
      cases hid : apt.id with
      | nil => exact absurd hid h5
      | cons c cs => rfl
    rw [h1]
    simp
  have hempty : collisionFilter appointments s = [] := by
    unfold collisionFilter
    rw [filter_and_eq (fun a => aptMatches3 s a) (fun a => aptLinkOk s a) appointments, h3]
    simp [List.filter_cons, hlink]
  have hcond : ¬ (elig1 s = true ∧ ¬(collisionFilter appointments s).isEmpty = true) := by
    intro hcontra
    rw [hempty] at hcontra
    exact hcontra.2 rfl
  refine ⟨?_, ?_, ?_⟩
  · unfold pass2ConflictOf
    rw [if_neg hcond]
  · unfold pass2ChangeOf
    rw [if_neg hcond]
  · unfold pass2Mark
    rw [if_neg hcond]

/-- A concrete appointment colliding with `wSlotA` on (professional, date,
time). -/
def wApt : Appointment :=
  { id := str "a1", client := str "joao", professionalId := str "p1",
    date := str "2024-01-01", time := str "08:00", type := str "consulta" }

/-- Slot `wSlotA` linked to `wApt` (the update-in-place case of pass 2). -/
def wSlotLinked : Slot := { wSlotA with linkedAppointmentId := str "a1" }

/-- C4 witness: with registry `[wApt]` and the linked slot, pass 2 emits
nothing and leaves the slot alone. -/
theorem claim4_witness :
    pass2ConflictOf [wApt] wSlotLinked = none ∧
      pass2ChangeOf [wApt] wSlotLinked = none ∧
      pass2Mark [wApt] wSlotLinked = wSlotLinked :=
  claim4_linked_appointment_excluded [wApt] wSlotLinked wApt (by decide) (by decide)
    (by decide)

/-- Whether a conflict is an inactive-professional conflict for slot id `i`. -/
def Conflict.isInactiveFor (i : List Char) : Conflict → Bool
  | .inactiveProfessional _ _ _ _ sid => sid == i
  | _ => false

theorem pass1Conflicts_no_inactive (sched : List Slot) (i : List Char) :
    ∀ c ∈ pass1Conflicts sched, c.isInactiveFor i = false := by
  intro c hc
  simp only [pass1Conflicts, List.mem_filterMap] at hc
  obtain ⟨k, _, hk⟩ := hc
  split at hk
  · cases hk
    rfl
  · cases hk

theorem pass2Conflicts_no_inactive (appointments : List Appointment) (sched : List Slot)
    (i : List Char) : ∀ c ∈ pass2Conflicts appointments sched, c.isInactiveFor i = false := by
  intro c hc
  simp only [pass2Conflicts, List.mem_filterMap] at hc
  obtain ⟨t, _, ht⟩ := hc
  unfold pass2ConflictOf at ht
  split at ht
  · cases ht
    rfl
  · cases ht

theorem pass3Conflicts_no_inactive (sched : List Slot) (i : List Char) :
    ∀ c ∈ pass3Conflicts sched, c.isInactiveFor i = false := by
  intro c hc
  simp only [pass3Conflicts, List.mem_filterMap] at hc
  obtain ⟨k, _, hk⟩ := hc
  split at hk
  · cases hk
    rfl
  · cases hk

/-- Counting after `filterMap` counts producers whose output satisfies the
predicate. -/
theorem countP_filterMap {α β : Type} (f : α → Option β) (p : β → Bool) (l : List α) :
    (l.filterMap f).countP p
      = l.countP (fun a => match f a with | some b => p b | none => false) := by
  induction l with
  | nil => rfl
  | cons x xs ih =>
      cases hfx : f x with
      | none => simp [List.filterMap_cons, hfx, List.countP_cons, ih]
      | some b => simp [List.filterMap_cons, hfx, List.countP_cons, ih]

theorem getD_map_lt {α β : Type} (f : α → β) (l : List α) (j : Nat) (hj : j < l.length)
    (d1 : β) (d2 : α) : (l.map f).getD j d1 = f (l.getD j d2) := by
  induction l generalizing j with
  | nil => simp at hj
  | cons x xs ih =>
      cases j with
      | zero => rfl
      | succ j => exact ih j (by simpa using hj)

theorem getD_mem_of_lt {α : Type} (l : List α) (j : Nat) (hj : j < l.length) (d : α) :
    l.getD j d ∈ l := by
  induction l generalizing j with
  | nil => simp at hj
  | cons x xs ih =>
      cases j with
      | zero => exact List.mem_cons_self x xs
      | succ j => exact List.mem_cons_of_mem x (ih j (by simpa using hj))

theorem pass4Mark_schedule_flag (professionals : List Professional) (t : Slot) :
    (pass4Mark professionals t).hasScheduleConflict = t.hasScheduleConflict := by
  unfold pass4Mark
  split <;> rfl


theorem pass4ConflictOf_some (professionals : List Professional) (t : Slot) (c : Conflict)
    (h : pass4ConflictOf professionals t = some c) :
    ∃ p : Professional,
      c = .inactiveProfessional p.name t.patientName t.roomName (dayTimeOf t) t.id := by
  unfold pass4ConflictOf at h
  cases hft : pass4Find professionals t with
  | none => rw [hft] at h; cases h
  | some p =>
      simp only [hft] at h
      by_cases hp : p.inactive = true
      · rw [if_pos hp] at h
        injection h with h'
        exact ⟨p, h'.symm⟩
      · rw [if_neg hp] at h
        cases h

/-- C8: for a slot of the schedule entering pass 4 that is occupied, carries
a professional id, and whose id resolves (per the pass's `find`) to an
inactive registry professional — with the slot id unique in that schedule —
the run's conflict list carries exactly one InactiveProfessional entry for
that slot, the slot ends the run with `hasValidationError = true`, and the
inactive-professional pass changes no slot's `hasScheduleConflict`. -/
theorem claim8_inactive_professional (genId : Nat → List Char) (d : RoomImportData)
    (profs : List Professional) (apts : List Appointment) (i : Nat) (s : Slot)
    (prof : Professional)
    (hi : i < (sched4Of genId d profs apts).length)
    (hs : (sched4Of genId d profs apts).getD i default = s)
    (hocc : s.isOccupied = true) (hpid : s.professionalId ≠ [])
    (hfind : profs.find? (fun p => p.id == s.professionalId) = some prof)
    (hinact : prof.inactive = true)
    (huniq : ((sched4Of genId d profs apts).filter (fun t => t.id == s.id)).length = 1) :
    ((processImportedData genId d profs apts).conflicts.countP
        (Conflict.isInactiveFor s.id) = 1) ∧
    (((processImportedData genId d profs apts).schedule.getD i default).hasValidationError
        = true) ∧
    (∀ j : Nat,
      ((processImportedData genId d profs apts).schedule.getD j default).hasScheduleConflict
        = ((sched4Of genId d profs apts).getD j default).hasScheduleConflict) := by
  have helig : elig1 s = true := by
    unfold elig1
    rw [hocc]
    cases hpl : s.professionalId with
    | nil => exact absurd hpl hpid
    | cons c cs => rfl
  have hconf : pass4ConflictOf profs s
      = some (.inactiveProfessional prof.name s.patientName s.roomName (dayTimeOf s) s.id) := by
    unfold pass4ConflictOf pass4Find
    rw [if_pos helig, hfind]
    simp [hinact]
  have hhit : pass4Hit profs s = true := by
    unfold pass4Hit pass4Find
    rw [if_pos helig, hfind]
    exact hinact
  have hmem : s ∈ sched4Of genId d profs apts := by
    rw [← hs]
    exact getD_mem_of_lt _ i hi default
  have hconflicts : (processImportedData genId d profs apts).conflicts
      = pass1Conflicts (sched1Of genId d profs apts) ++
        pass2Conflicts apts (sched2Of genId d profs apts) ++
        pass3Conflicts (sched3Of genId d profs apts) ++
        pass4Conflicts profs (sched4Of genId d profs apts) := rfl
  have hsched : (processImportedData genId d profs apts).schedule
      = (sched4Of genId d profs apts).map (pass4Mark profs) := rfl
  refine ⟨?_, ?_, ?_⟩
  · rw [hconflicts, List.countP_append, List.countP_append, List.countP_append]
    have z1 : (pass1Conflicts (sched1Of genId d profs apts)).countP
        (Conflict.isInactiveFor s.id) = 0 :=
      List.countP_eq_zero.mpr (fun c hc => by
        rw [pass1Conflicts_no_inactive _ s.id c hc]; simp)
    have z2 : (pass2Conflicts apts (sched2Of genId d profs apts)).countP
        (Conflict.isInactiveFor s.id) = 0 :=
      List.countP_eq_zero.mpr (fun c hc => by
        rw [pass2Conflicts_no_inactive _ _ s.id c hc]; simp)
    have z3 : (pass3Conflicts (sched3Of genId d profs apts)).countP
        (Conflict.isInactiveFor s.id) = 0 :=
      List.countP_eq_zero.mpr (fun c hc => by
        rw [pass3Conflicts_no_inactive _ s.id c hc]; simp)
    have z4 : (pass4Conflicts profs (sched4Of genId d profs apts)).countP
        (Conflict.isInactiveFor s.id) = 1 := by
      unfold pass4Conflicts
      rw [countP_filterMap]
      have step2 : (sched4Of genId d profs apts).countP (fun t => t.id == s.id) = 1 := by
        rw [List.countP_eq_length_filter]
        exact huniq
      apply le_antisymm
      · refine le_trans (List.countP_mono_left ?_) (le_of_eq step2)
        intro t _ hq
        cases hct : pass4ConflictOf profs t with
        | none =>
            rw [hct] at hq
            simp at hq
        | some c =>
            rw [hct] at hq
            obtain ⟨p, hp⟩ := pass4ConflictOf_some profs t c hct
            rw [hp] at hq
            simpa [Conflict.isInactiveFor] using hq
      · refine Nat.succ_le_of_lt (List.countP_pos_iff.mpr ⟨s, hmem, ?_⟩)
        rw [hconf]
        simp [Conflict.isInactiveFor]
    rw [z1, z2, z3, z4]
  · rw [hsched, getD_map_lt (pass4Mark profs) _ i hi default default, hs]
    unfold pass4Mark
    rw [if_pos hhit]
  · intro j
    rcases Nat.lt_or_ge j (sched4Of genId d profs apts).length with hj | hj
    · rw [hsched, getD_map_lt (pass4Mark profs) _ j hj default default]
      exact pass4Mark_schedule_flag profs _
    · rw [hsched, List.getD_eq_default _ _ (by rw [List.length_map]; exact hj),
        List.getD_eq_default _ _ hj]

/-- An inactive registry professional matching `wSlotA`'s professional id. -/
def wProfInactive : Professional :=
  { id := str "p1", name := str "ana", specialty := [], registration := [],
    inactive := true }

/-- A concrete synthetic-id generator for witnesses. -/
def wGen : Nat → List Char := fun _ => str "NP"

/-- Import data holding just `wSlotA`. -/
def wImport1 : RoomImportData :=
  { schedule := [wSlotA], newProfessionals := [], updatedAppointments := [] }

/-- C8 witness: one occupied slot pointing at an inactive professional. -/
theorem claim8_witness :
    ((processImportedData wGen wImport1 [wProfInactive] []).conflicts.countP
        (Conflict.isInactiveFor wSlotA.id) = 1) ∧
    (((processImportedData wGen wImport1 [wProfInactive] []).schedule.getD 0
        default).hasValidationError = true) ∧
    (((processImportedData wGen wImport1 [wProfInactive] []).schedule.getD 0
        default).hasScheduleConflict
      = ((sched4Of wGen wImport1 [wProfInactive] []).getD 0
        default).hasScheduleConflict) :=
  have h := claim8_inactive_professional wGen wImport1 [wProfInactive] [] 0 wSlotA
    wProfInactive (by decide) (by decide) (by decide) (by decide) (by decide)
    (by decide) (by decide)
  ⟨h.1, h.2.1, h.2.2 0⟩

theorem jsSetDedupAux_mem {α : Type} [DecidableEq α] :
    ∀ (n : Nat) (l : List α), l.length ≤ n → ∀ a ∈ l, a ∈ jsSetDedupAux n l := by
  intro n
  induction n with
  | zero =>
      intro l hl a ha
      have : l = [] := List.length_eq_zero.mp (by omega)
      subst this
      simp at ha
  | succ n ih =>
      intro l hl a ha
      cases l with
      | nil => simp at ha
      | cons x xs =>
          by_cases hax : a = x
          · rw [hax]
            exact List.mem_cons_self x _
          · have haxs : a ∈ xs := by
              rcases List.mem_cons.mp ha with h | h
              · exact absurd h hax
              · exact h
            have hmemf : a ∈ xs.filter (fun y => y != x) := by
              apply List.mem_filter.mpr
              exact ⟨haxs, by simp [hax]⟩
            have hlen : (xs.filter (fun y => y != x)).length ≤ n := by
              have := List.length_filter_le (fun y => y != x) xs
              simp only [List.length_cons] at hl
              omega
            exact List.mem_cons_of_mem x (ih _ hlen a hmemf)

/-- Membership survives the first-occurrence deduplication. -/
theorem jsSetDedup_mem {α : Type} [DecidableEq α] (l : List α) (a : α) (ha : a ∈ l) :
    a ∈ jsSetDedup l :=
  jsSetDedupAux_mem l.length l le_rfl a ha

/-- A filter keeping two distinct positions has length at least two. -/
theorem two_le_length_filter {α : Type} :
    ∀ (l : List α) (p : α → Bool) (i j : Nat) (d : α), i ≠ j → i < l.length →
      j < l.length → p (l.getD i d) = true → p (l.getD j d) = true →
      2 ≤ (l.filter p).length := by
  intro l
  induction l with
  | nil => intro p i j d _ hi; simp at hi
  | cons x xs ih =>
      intro p i j d hij hi hj hpi hpj
      have hone : ∀ (m : Nat), m < xs.length → p (xs.getD m d) = true →
          1 ≤ (xs.filter p).length := by
        intro m hm hpm
        have : xs.getD m d ∈ xs.filter p :=
          List.mem_filter.mpr ⟨getD_mem_of_lt xs m hm d, hpm⟩
        have := List.length_pos.mpr (List.ne_nil_of_mem this)
        omega
      cases i with
      | zero =>
          cases j with
          | zero => exact absurd rfl hij
          | succ m =>
              have hx : p x = true := hpi
              rw [List.filter_cons_of_pos hx]
              have := hone m (by simpa using hj) hpj
              simp only [List.length_cons]
              omega
      | succ m =>
          cases j with
          | zero =>
              have hx : p x = true := hpj
              rw [List.filter_cons_of_pos hx]
              have := hone m (by simpa using hi) hpi
              simp only [List.length_cons]
              omega
          | succ m' =>
              have h2 := ih p m m' d (by omega) (by simpa using hi) (by simpa using hj)
                hpi hpj
              have hsplit := List.length_filter_le p [x]
              cases hpx : p x
              · rw [List.filter_cons_of_neg (by rw [hpx]; exact Bool.false_ne_true)]
                exact h2
              · rw [List.filter_cons_of_pos hpx]
                simp only [List.length_cons]
                omega

theorem pass1Mark_sets (sched : List Slot) (t : Slot)
    (hcond : elig1 t = true ∧ 1 < (profGroup sched (profKey t)).length) :
    (pass1Mark sched t).hasScheduleConflict = true := by
  unfold pass1Mark
  rw [if_pos hcond]

theorem pass2Mark_flag_mono (appointments : List Appointment) (t : Slot)
    (h : t.hasScheduleConflict = true) :
    (pass2Mark appointments t).hasScheduleConflict = true := by
  unfold pass2Mark
  split
  · rfl
  · exact h

theorem pass3Mark_flag_mono (sched : List Slot) (t : Slot)
    (h : t.hasScheduleConflict = true) :
    (pass3Mark sched t).hasScheduleConflict = true := by
  unfold pass3Mark
  split
  · rfl
  · exact h

/-- The relation `sameBooking s t`: `t` is occupied, carries a non-empty professional id,
and agrees with `s` on the double-booking composite key
(professionalId, appointmentDate, time). -/
def sameBooking (s t : Slot) : Prop :=
  t.isOccupied = true ∧ t.professionalId ≠ [] ∧ t.professionalId = s.professionalId ∧
    t.appointmentDate = s.appointmentDate ∧ t.time = s.time

instance (s t : Slot) : Decidable (sameBooking s t) := by
  unfold sameBooking
  infer_instance

/-- C3: if the schedule leaving name validation holds, at two distinct
positions, occupied slots with (equal, non-empty) professional ids agreeing
on date and time, then the run's conflict list contains a professional
double-booking conflict whose slot-id list includes the id of every slot of
the schedule agreeing with them, and every agreeing slot position carries
`hasScheduleConflict = true` in the final schedule. -/
theorem claim3_double_booking_complete (genId : Nat → List Char) (d : RoomImportData)
    (profs : List Professional) (apts : List Appointment) (i : Nat) (s : Slot)
    (hi : i < (sched1Of genId d profs apts).length)
    (hs : (sched1Of genId d profs apts).getD i default = s)
    (hocc : s.isOccupied = true) (hpid : s.professionalId ≠ [])
    (hex : ∃ j, j < (sched1Of genId d profs apts).length ∧ j ≠ i ∧
      sameBooking s ((sched1Of genId d profs apts).getD j default)) :
    (∃ c ∈ (processImportedData genId d profs apts).conflicts,
      (∃ pn rooms dt ids, c = Conflict.profMultipleRooms pn rooms dt ids) ∧
      (∀ t ∈ sched1Of genId d profs apts, sameBooking s t → t.id ∈ c.slotIds)) ∧
    (∀ j, j < (sched1Of genId d profs apts).length →
      sameBooking s ((sched1Of genId d profs apts).getD j default) →
      ((processImportedData genId d profs apts).schedule.getD j
        default).hasScheduleConflict = true) := by
  set S1 := sched1Of genId d profs apts with hS1
  have helig : elig1 s = true := by
    unfold elig1
    rw [hocc]
    cases hp : s.professionalId with
    | nil => exact absurd hp hpid
    | cons a b => rfl
  have hkey_t : ∀ t : Slot, sameBooking s t → elig1 t = true ∧ profKey t = profKey s := by
    intro t ht
    obtain ⟨h1, h2, h3, h4, h5⟩ := ht
    constructor
    · unfold elig1
      rw [h1]
      cases hp : t.professionalId with
      | nil => exact absurd hp h2
      | cons a b => rfl
    · unfold profKey key3
      rw [h3, h4, h5]
  have hsb_self : sameBooking s s := ⟨hocc, hpid, rfl, rfl, rfl⟩
  obtain ⟨j0, hj0len, hj0ne, hj0sb⟩ := hex
  have hgroup_eq : profGroup S1 (profKey s)
      = S1.filter (fun u => elig1 u && (profKey u == profKey s)) := by
    unfold profGroup
    exact (filter_and_eq elig1 (fun u => profKey u == profKey s) S1).symm
  have hp_at : ∀ t : Slot, sameBooking s t →
      (elig1 t && (profKey t == profKey s)) = true := by
    intro t hsb
    obtain ⟨he, hk⟩ := hkey_t t hsb
    rw [he, hk]
    simp
  have htwo : 2 ≤ (profGroup S1 (profKey s)).length := by
    rw [hgroup_eq]
    apply two_le_length_filter S1 _ i j0 default (fun h => hj0ne h.symm) hi hj0len
    · rw [hs]
      exact hp_at s hsb_self
    · exact hp_at _ hj0sb
  have hmem_s : s ∈ S1 := by
    rw [← hs]
    exact getD_mem_of_lt _ i hi default
  have hkmem : profKey s ∈ jsSetDedup ((S1.filter elig1).map profKey) := by
    apply jsSetDedup_mem
    apply List.mem_map.mpr
    exact ⟨s, List.mem_filter.mpr ⟨hmem_s, helig⟩, rfl⟩
  have hconf_mem : (Conflict.profMultipleRooms
      ((profGroup S1 (profKey s)).headD default).professionalName
      (joinComma ((profGroup S1 (profKey s)).map Slot.roomName))
      (dayTimeOf ((profGroup S1 (profKey s)).headD default))
      ((profGroup S1 (profKey s)).map Slot.id)) ∈ pass1Conflicts S1 := by
    apply List.mem_filterMap.mpr
    refine ⟨profKey s, hkmem, ?_⟩
    show (if 1 < (profGroup S1 (profKey s)).length then _ else none) = _
    rw [if_pos (by omega : 1 < (profGroup S1 (profKey s)).length)]
  have hrunconfl : (processImportedData genId d profs apts).conflicts
      = pass1Conflicts S1 ++ pass2Conflicts apts (sched2Of genId d profs apts) ++
        pass3Conflicts (sched3Of genId d profs apts) ++
        pass4Conflicts profs (sched4Of genId d profs apts) := rfl
  constructor
  · refine ⟨Conflict.profMultipleRooms
        ((profGroup S1 (profKey s)).headD default).professionalName
        (joinComma ((profGroup S1 (profKey s)).map Slot.roomName))
        (dayTimeOf ((profGroup S1 (profKey s)).headD default))
        ((profGroup S1 (profKey s)).map Slot.id), ?_, ⟨_, _, _, _, rfl⟩, ?_⟩
    · rw [hrunconfl]
      exact List.mem_append_left _ (List.mem_append_left _
        (List.mem_append_left _ hconf_mem))
    · intro t ht hsb
      show t.id ∈ (profGroup S1 (profKey s)).map Slot.id
      apply List.mem_map.mpr
      refine ⟨t, ?_, rfl⟩
      rw [hgroup_eq]
      exact List.mem_filter.mpr ⟨ht, hp_at t hsb⟩
  · intro j hj hsb
    have hflag2 : (pass1Mark S1 (S1.getD j default)).hasScheduleConflict = true := by
      apply pass1Mark_sets
      refine ⟨(hkey_t _ hsb).1, ?_⟩
      rw [(hkey_t _ hsb).2]
      omega
    have hsched_run : (processImportedData genId d profs apts).schedule
        = (((S1.map (pass1Mark S1)).map (pass2Mark apts)).map
            (pass3Mark (sched3Of genId d profs apts))).map (pass4Mark profs) := rfl
    have l1 : j < (S1.map (pass1Mark S1)).length := by
      rw [List.length_map]; exact hj
    have l2 : j < ((S1.map (pass1Mark S1)).map (pass2Mark apts)).length := by
      rw [List.length_map]; exact l1
    have l3 : j < (((S1.map (pass1Mark S1)).map (pass2Mark apts)).map
        (pass3Mark (sched3Of genId d profs apts))).length := by
      rw [List.length_map]; exact l2
    rw [hsched_run, getD_map_lt (pass4Mark profs) _ j l3 default default,
      getD_map_lt (pass3Mark (sched3Of genId d profs apts)) _ j l2 default default,
      getD_map_lt (pass2Mark apts) _ j l1 default default,
      getD_map_lt (pass1Mark S1) _ j hj default default,
      pass4Mark_schedule_flag]
    apply pass3Mark_flag_mono
    apply pass2Mark_flag_mono
    exact hflag2

/-- An active registry professional matching `wSlotA`/`wSlotB`. -/
def wProfActive : Professional :=
  { id := str "p1", name := str "ana", specialty := [], registration := [],
    inactive := false }

/-- Import data with two slots double-booking the same professional. -/
def wImport2 : RoomImportData :=
  { schedule := [wSlotA, wSlotB], newProfessionals := [], updatedAppointments := [] }

/-- C3 witness: two occupied slots sharing (professionalId, date, time) in
different rooms yield a double-booking conflict covering both, and the
second slot ends flagged. -/
theorem claim3_witness :
    (∃ c ∈ (processImportedData wGen wImport2 [wProfActive] []).conflicts,
      (∃ pn rooms dt ids, c = Conflict.profMultipleRooms pn rooms dt ids) ∧
      (∀ t ∈ sched1Of wGen wImport2 [wProfActive] [], sameBooking wSlotA t →
        t.id ∈ Conflict.slotIds c)) ∧
    ((processImportedData wGen wImport2 [wProfActive] []).schedule.getD 1
      default).hasScheduleConflict = true :=
  have h := claim3_double_booking_complete wGen wImport2 [wProfActive] [] 0 wSlotA
    (by decide) (by decide) (by decide) (by decide)
    ⟨1, by decide, by decide, by decide⟩
  ⟨h.1, h.2 1 (by decide) (by decide)⟩

theorem patientStep_skip_empty (rp : List (List Char)) (apts : List Appointment)
    (st : VState) (s : Slot) (h : s.patientName = []) :
    patientStep rp apts st s = (st, s) := by
  unfold patientStep
  rw [h]
  rfl

/-- The synthetic professional created for an unmatched name. -/
def newProfessionalOf (genId : Nat → List Char) (counter : Nat) (s : Slot) : Professional :=
  { id := genId counter, name := s.professionalName, specialty := str "Importado - IA",
    registration := [], inactive := false }

/-- The validation error recorded when a synthetic professional is created. -/
def newProfErrOf (s : Slot) : ValidationError :=
  { type := str "Profissional", name := s.professionalName, location := locOf s,
    action := str "Novo profissional será criado", slotId := s.id }

/-- The change record recorded when a synthetic professional is created. -/
def newProfChangeOf (s : Slot) : ChangeRecord :=
  { type := str "Novo Profissional",
    description := str "Criar novo profissional \"" ++ s.professionalName ++ str "\"",
    location := locOf s, slotId := s.id }

theorem professionalStep_creates (rpro : List (List Char)) (profs : List Professional)
    (genId : Nat → List Char) (st : VState) (s : Slot)
    (hn : s.professionalName ≠ [])
    (hreg : jsTrim (jsToLower s.professionalName) ∉ rpro)
    (hnew : st.newProfs.any (fun p =>
      jsTrim (jsToLower p.name) == jsTrim (jsToLower s.professionalName)) = false)
    (hmatch : _findClosestMatch (jsTrim (jsToLower s.professionalName)) rpro = none) :
    professionalStep rpro profs genId st s =
      ({ st with
          newProfs := st.newProfs ++ [newProfessionalOf genId st.counter s]
          counter := st.counter + 1
          valErrs := st.valErrs ++ [newProfErrOf s]
          changes := st.changes ++ [newProfChangeOf s] },
        { s with professionalId := genId st.counter }) := by
  have hne : s.professionalName.isEmpty = false := by
    cases hp : s.professionalName with
    | nil => exact absurd hp hn
    | cons a b => rfl
  simp only [professionalStep, hne, Bool.false_eq_true, if_false, if_neg hreg, hnew,
    hmatch, newProfessionalOf, newProfErrOf, newProfChangeOf]

theorem professionalStep_skips (rpro : List (List Char)) (profs : List Professional)
    (genId : Nat → List Char) (st : VState) (s : Slot)
    (hcase : s.professionalName = [] ∨
      (jsTrim (jsToLower s.professionalName) ∉ rpro ∧
        st.newProfs.any (fun p =>
          jsTrim (jsToLower p.name) == jsTrim (jsToLower s.professionalName)) = true)) :
    professionalStep rpro profs genId st s = (st, s) := by
  rcases hcase with h | ⟨hreg, hany⟩
  · unfold professionalStep
    rw [h]
    rfl
  · have hne2 : s.professionalName.isEmpty = true ∨ s.professionalName.isEmpty = false := by
      cases s.professionalName.isEmpty
      · exact Or.inr rfl
      · exact Or.inl rfl
    rcases hne2 with he | he
    · unfold professionalStep
      rw [if_pos he]
    · simp only [professionalStep, he, Bool.false_eq_true, if_false, if_neg hreg, hany,
        if_true]

theorem processSlot_occupied (rp rpro : List (List Char)) (profs : List Professional)
    (apts : List Appointment) (genId : Nat → List Char) (st : VState) (s : Slot)
    (h : s.isOccupied = true) :
    processSlot rp rpro profs apts genId st s
      = professionalStep rpro profs genId (patientStep rp apts st s).1
          (patientStep rp apts st s).2 := by
  unfold processSlot
  rw [if_pos h]

theorem pass1Mark_professionalId (sched : List Slot) (t : Slot) :
    (pass1Mark sched t).professionalId = t.professionalId := by
  unfold pass1Mark; split <;> rfl

theorem pass2Mark_professionalId (apts : List Appointment) (t : Slot) :
    (pass2Mark apts t).professionalId = t.professionalId := by
  unfold pass2Mark; split <;> rfl

theorem pass3Mark_professionalId (sched : List Slot) (t : Slot) :
    (pass3Mark sched t).professionalId = t.professionalId := by
  unfold pass3Mark; split <;> rfl

theorem pass4Mark_professionalId (profs : List Professional) (t : Slot) :
    (pass4Mark profs t).professionalId = t.professionalId := by
  unfold pass4Mark; split <;> rfl

/-- An occupied slot whose professional name is not registered and has no
close match in an empty registry. -/
def cSlotA : Slot :=
  { id := str "s1", roomName := str "r1", dayOfWeek := str "seg", time := str "08:00",
    appointmentDate := str "2024-01-01", isOccupied := true, patientName := [],
    professionalName := str "zzq", professionalId := [], linkedAppointmentId := [],
    hasScheduleConflict := false, hasValidationError := false }

/-- A second slot with the same unmatched professional name. -/
def cSlotB : Slot := { cSlotA with id := str "s2", roomName := str "r2" }

/-- Import data carrying the two same-name slots. -/
def cImport : RoomImportData :=
  { schedule := [cSlotA, cSlotB], newProfessionals := [], updatedAppointments := [] }

/-- C1 counterexample: with two occupied slots carrying the same
otherwise-unmatched professional name, the run creates exactly one synthetic
professional and sets the FIRST slot's `professionalId` to its id, but the
second slot's `professionalId` is left empty — not set to the synthetic id,
contradicting the claim that both slots end up referencing it. -/
theorem claim1_counterexample :
    (processImportedData wGen cImport [] []).newProfessionals.length = 1 ∧
    ((processImportedData wGen cImport [] []).schedule.getD 0 default).professionalId
      = ((processImportedData wGen cImport [] []).newProfessionals.headD
          wProfActive).id ∧
    ((processImportedData wGen cImport [] []).schedule.getD 1 default).professionalId
      ≠ ((processImportedData wGen cImport [] []).newProfessionals.headD
          wProfActive).id := by
  refine ⟨by decide, by decide, by decide⟩

/-- C1 amended: in a run over two occupied slots bearing the same normalized
professional name — a name that is neither registered, nor fuzzy-matchable,
nor already in the new-professionals list — exactly one synthetic
Professional is appended, the FIRST slot's `professionalId` is set to its
id, and the second slot is skipped by the idempotence check with its
`professionalId` left unchanged (it does not reference the synthetic id
unless it already did). -/
theorem claim1_amended (genId : Nat → List Char) (newProfs0 : List Professional)
    (ups : List Appointment) (profs : List Professional) (apts : List Appointment)
    (s1 s2 : Slot)
    (h1 : s1.isOccupied = true) (h2 : s2.isOccupied = true)
    (hp1 : s1.patientName = []) (hp2 : s2.patientName = [])
    (hn1 : s1.professionalName ≠ [])
    (hsame : jsTrim (jsToLower s2.professionalName)
      = jsTrim (jsToLower s1.professionalName))
    (hreg : jsTrim (jsToLower s1.professionalName) ∉ registeredProfessionalsOf profs)
    (hnew : ∀ p ∈ newProfs0, (jsTrim (jsToLower p.name)
      == jsTrim (jsToLower s1.professionalName)) = false)
    (hmatch : _findClosestMatch (jsTrim (jsToLower s1.professionalName))
      (registeredProfessionalsOf profs) = none) :
    (processImportedData genId ⟨[s1, s2], newProfs0, ups⟩ profs apts).newProfessionals
      = newProfs0 ++ [newProfessionalOf genId 0 s1] ∧
    ((processImportedData genId ⟨[s1, s2], newProfs0, ups⟩ profs apts).schedule.getD 0
      default).professionalId = genId 0 ∧
    ((processImportedData genId ⟨[s1, s2], newProfs0, ups⟩ profs apts).schedule.getD 1
      default).professionalId = s2.professionalId := by
  set RP := registeredPatientsOf apts with hRP
  set RPRO := registeredProfessionalsOf profs with hRPRO
  set st0 : VState :=
    { newProfs := newProfs0, autoCorr := [], valErrs := [], changes := [],
      counter := 0 } with hst0
  have hany0 : st0.newProfs.any (fun p =>
      jsTrim (jsToLower p.name) == jsTrim (jsToLower s1.professionalName)) = false := by
    apply List.any_eq_false.mpr
    intro p hp
    rw [hnew p hp]
    exact Bool.false_ne_true
  have hstep1 : processSlot RP RPRO profs apts genId st0 s1
      = ({ st0 with
            newProfs := st0.newProfs ++ [newProfessionalOf genId st0.counter s1]
            counter := st0.counter + 1
            valErrs := st0.valErrs ++ [newProfErrOf s1]
            changes := st0.changes ++ [newProfChangeOf s1] },
          { s1 with professionalId := genId st0.counter }) := by
    rw [processSlot_occupied _ _ _ _ _ _ _ h1, patientStep_skip_empty _ _ _ _ hp1]
    exact professionalStep_creates RPRO profs genId st0 s1 hn1 hreg hany0 hmatch
  have hstep2 : processSlot RP RPRO profs apts genId
      ({ st0 with
          newProfs := st0.newProfs ++ [newProfessionalOf genId st0.counter s1]
          counter := st0.counter + 1
          valErrs := st0.valErrs ++ [newProfErrOf s1]
          changes := st0.changes ++ [newProfChangeOf s1] }) s2
      = ({ st0 with
            newProfs := st0.newProfs ++ [newProfessionalOf genId st0.counter s1]
            counter := st0.counter + 1
            valErrs := st0.valErrs ++ [newProfErrOf s1]
            changes := st0.changes ++ [newProfChangeOf s1] }, s2) := by
    rw [processSlot_occupied _ _ _ _ _ _ _ h2, patientStep_skip_empty _ _ _ _ hp2]
    apply professionalStep_skips
    by_cases hs2n : s2.professionalName = []
    · exact Or.inl hs2n
    · refine Or.inr ⟨?_, ?_⟩
      · rw [hsame]
        exact hreg
      · apply List.any_eq_true.mpr
        refine ⟨newProfessionalOf genId st0.counter s1,
          List.mem_append_right _ (List.mem_singleton.mpr rfl), ?_⟩
        show (jsTrim (jsToLower s1.professionalName)
          == jsTrim (jsToLower s2.professionalName)) = true
        rw [hsame]
        exact beq_self_eq_true _
  have hval : validateOut genId ⟨[s1, s2], newProfs0, ups⟩ profs apts
      = ({ st0 with
            newProfs := st0.newProfs ++ [newProfessionalOf genId st0.counter s1]
            counter := st0.counter + 1
            valErrs := st0.valErrs ++ [newProfErrOf s1]
            changes := st0.changes ++ [newProfChangeOf s1] },
          [{ s1 with professionalId := genId st0.counter }, s2]) := by
    show validateSlots RP RPRO profs apts genId st0 [s1, s2] = _
    simp only [validateSlots, hstep1, hstep2]
  have hsched1 : sched1Of genId ⟨[s1, s2], newProfs0, ups⟩ profs apts
      = [{ s1 with professionalId := genId st0.counter }, s2] := by
    show (validateOut genId ⟨[s1, s2], newProfs0, ups⟩ profs apts).2 = _
    rw [hval]
  refine ⟨?_, ?_, ?_⟩
  · show (validateOut genId ⟨[s1, s2], newProfs0, ups⟩ profs apts).1.newProfs = _
    rw [hval]
  · show ((((((sched1Of genId ⟨[s1, s2], newProfs0, ups⟩ profs apts).map
        (pass1Mark (sched1Of genId ⟨[s1, s2], newProfs0, ups⟩ profs apts))).map
        (pass2Mark apts)).map
        (pass3Mark (sched3Of genId ⟨[s1, s2], newProfs0, ups⟩ profs apts))).map
        (pass4Mark profs)).getD 0 default).professionalId = genId 0
    rw [hsched1]
    rw [getD_map_lt _ _ 0 (by simp) default default,
      getD_map_lt _ _ 0 (by simp) default default,
      getD_map_lt _ _ 0 (by simp) default default,
      getD_map_lt _ _ 0 (by simp) default default,
      pass4Mark_professionalId, pass3Mark_professionalId, pass2Mark_professionalId,
      pass1Mark_professionalId]
    rfl
  · show ((((((sched1Of genId ⟨[s1, s2], newProfs0, ups⟩ profs apts).map
        (pass1Mark (sched1Of genId ⟨[s1, s2], newProfs0, ups⟩ profs apts))).map
        (pass2Mark apts)).map
        (pass3Mark (sched3Of genId ⟨[s1, s2], newProfs0, ups⟩ profs apts))).map
        (pass4Mark profs)).getD 1 default).professionalId = s2.professionalId
    rw [hsched1]
    rw [getD_map_lt _ _ 1 (by simp) default default,
      getD_map_lt _ _ 1 (by simp) default default,
      getD_map_lt _ _ 1 (by simp) default default,
      getD_map_lt _ _ 1 (by simp) default default,
      pass4Mark_professionalId, pass3Mark_professionalId, pass2Mark_professionalId,
      pass1Mark_professionalId]
    rfl

/-- C1 amended witness at the concrete two-slot run. -/
theorem claim1_amended_witness :
    (processImportedData wGen cImport [] []).newProfessionals
      = [] ++ [newProfessionalOf wGen 0 cSlotA] ∧
    ((processImportedData wGen cImport [] []).schedule.getD 0 default).professionalId
      = wGen 0 ∧
    ((processImportedData wGen cImport [] []).schedule.getD 1 default).professionalId
      = cSlotB.professionalId :=
  claim1_amended wGen [] [] [] [] cSlotA cSlotB (by decide) (by decide) (by decide)
    (by decide) (by decide) (by decide) (by decide) (by decide) (by decide)

/-- The ids of the occupied slots of a schedule — the only slot ids any pass
may attach to an emitted record or conflict. -/
def occupiedIds (l : List Slot) : List (List Char) :=
  (l.filter Slot.isOccupied).map Slot.id

theorem mem_occupiedIds {l : List Slot} {x : List Char} :
    x ∈ occupiedIds l ↔ ∃ t ∈ l, t.isOccupied = true ∧ t.id = x := by
  unfold occupiedIds
  constructor
  · intro hx
    obtain ⟨t, htf, hid⟩ := List.mem_map.mp hx
    obtain ⟨htl, hto⟩ := List.mem_filter.mp htf
    exact ⟨t, htl, hto, hid⟩
  · intro ⟨t, htl, hto, hid⟩
    exact List.mem_map.mpr ⟨t, List.mem_filter.mpr ⟨htl, hto⟩, hid⟩

theorem occupiedIds_cons_occ {s : Slot} (l : List Slot) (h : s.isOccupied = true) :
    occupiedIds (s :: l) = s.id :: occupiedIds l := by
  unfold occupiedIds
  rw [List.filter_cons_of_pos h]
  rfl

theorem occupiedIds_cons_unocc {s : Slot} (l : List Slot) (h : s.isOccupied = false) :
    occupiedIds (s :: l) = occupiedIds l := by
  unfold occupiedIds
  rw [List.filter_cons_of_neg (by rw [h]; exact Bool.false_ne_true)]

/-- A pointwise id- and occupancy-preserving map keeps the occupied ids. -/
theorem occupiedIds_map (f : Slot → Slot) (hid : ∀ s, (f s).id = s.id)
    (hocc : ∀ s, (f s).isOccupied = s.isOccupied) :
    ∀ l : List Slot, occupiedIds (l.map f) = occupiedIds l := by
  intro l
  induction l with
  | nil => rfl
  | cons x xs ih =>
      rw [List.map_cons]
      cases hx : x.isOccupied
      · rw [occupiedIds_cons_unocc _ (by rw [hocc x]; exact hx),
          occupiedIds_cons_unocc _ hx]
        exact ih
      · rw [occupiedIds_cons_occ _ (by rw [hocc x]; exact hx),
          occupiedIds_cons_occ _ hx, hid x, ih]

theorem pass1Mark_id (sched : List Slot) (t : Slot) : (pass1Mark sched t).id = t.id := by
  unfold pass1Mark; split <;> rfl

theorem pass1Mark_isOccupied (sched : List Slot) (t : Slot) :
    (pass1Mark sched t).isOccupied = t.isOccupied := by
  unfold pass1Mark; split <;> rfl

theorem pass2Mark_id (apts : List Appointment) (t : Slot) :
    (pass2Mark apts t).id = t.id := by
  unfold pass2Mark; split <;> rfl

theorem pass2Mark_isOccupied (apts : List Appointment) (t : Slot) :
    (pass2Mark apts t).isOccupied = t.isOccupied := by
  unfold pass2Mark; split <;> rfl

theorem pass3Mark_id (sched : List Slot) (t : Slot) : (pass3Mark sched t).id = t.id := by
  unfold pass3Mark; split <;> rfl

theorem pass3Mark_isOccupied (sched : List Slot) (t : Slot) :
    (pass3Mark sched t).isOccupied = t.isOccupied := by
  unfold pass3Mark; split <;> rfl

theorem pass4Mark_id (profs : List Professional) (t : Slot) :
    (pass4Mark profs t).id = t.id := by
  unfold pass4Mark; split <;> rfl

theorem pass4Mark_isOccupied (profs : List Professional) (t : Slot) :
    (pass4Mark profs t).isOccupied = t.isOccupied := by
  unfold pass4Mark; split <;> rfl

theorem elig1_of_false {t : Slot} (h : t.isOccupied = false) : elig1 t = false := by
  unfold elig1
  rw [h]
  rfl

theorem pass1Mark_unocc (sched : List Slot) (t : Slot) (h : t.isOccupied = false) :
    pass1Mark sched t = t := by
  unfold pass1Mark
  rw [if_neg]
  intro hc
  rw [elig1_of_false h] at hc
  exact Bool.false_ne_true hc.1

theorem pass2Mark_unocc (apts : List Appointment) (t : Slot) (h : t.isOccupied = false) :
    pass2Mark apts t = t := by
  unfold pass2Mark
  rw [if_neg]
  intro hc
  rw [elig1_of_false h] at hc
  exact Bool.false_ne_true hc.1

theorem pass3Mark_unocc (sched : List Slot) (t : Slot) (h : t.isOccupied = false) :
    pass3Mark sched t = t := by
  unfold pass3Mark
  rw [if_neg]
  intro hc
  rw [h] at hc
  exact Bool.false_ne_true hc.1

theorem pass4Mark_unocc (profs : List Professional) (t : Slot) (h : t.isOccupied = false) :
    pass4Mark profs t = t := by
  unfold pass4Mark
  rw [if_neg]
  intro hc
  unfold pass4Hit pass4Find at hc
  rw [if_neg (by rw [elig1_of_false h]; exact Bool.false_ne_true)] at hc
  exact Bool.false_ne_true hc

theorem patientStep_slot_id (rp : List (List Char)) (apts : List Appointment)
    (st : VState) (s : Slot) : ((patientStep rp apts st s).2).id = s.id := by
  unfold patientStep
  repeat' split
  all_goals rfl

theorem patientStep_slot_occ (rp : List (List Char)) (apts : List Appointment)
    (st : VState) (s : Slot) :
    ((patientStep rp apts st s).2).isOccupied = s.isOccupied := by
  simp only [patientStep]
  repeat' split
  all_goals rfl

theorem professionalStep_slot_id (rpro : List (List Char)) (profs : List Professional)
    (genId : Nat → List Char) (st : VState) (s : Slot) :
    ((professionalStep rpro profs genId st s).2).id = s.id := by
  simp only [professionalStep]
  repeat' split
  all_goals rfl

theorem professionalStep_slot_occ (rpro : List (List Char)) (profs : List Professional)
    (genId : Nat → List Char) (st : VState) (s : Slot) :
    ((professionalStep rpro profs genId st s).2).isOccupied = s.isOccupied := by
  simp only [professionalStep]
  repeat' split
  all_goals rfl

theorem processSlot_slot_id (rp rpro : List (List Char)) (profs : List Professional)
    (apts : List Appointment) (genId : Nat → List Char) (st : VState) (s : Slot) :
    ((processSlot rp rpro profs apts genId st s).2).id = s.id := by
  unfold processSlot
  split
  · rw [professionalStep_slot_id, patientStep_slot_id]
  · rfl

theorem processSlot_slot_occ (rp rpro : List (List Char)) (profs : List Professional)
    (apts : List Appointment) (genId : Nat → List Char) (st : VState) (s : Slot) :
    ((processSlot rp rpro profs apts genId st s).2).isOccupied = s.isOccupied := by
  unfold processSlot
  split
  · rw [professionalStep_slot_occ, patientStep_slot_occ]
  · rfl

theorem processSlot_unocc (rp rpro : List (List Char)) (profs : List Professional)
    (apts : List Appointment) (genId : Nat → List Char) (st : VState) (s : Slot)
    (h : s.isOccupied = false) :
    processSlot rp rpro profs apts genId st s = (st, s) := by
  unfold processSlot
  rw [if_neg (by rw [h]; exact Bool.false_ne_true)]

theorem patientStep_records (rp : List (List Char)) (apts : List Appointment)
    (st : VState) (s : Slot) :
    (∀ r ∈ (patientStep rp apts st s).1.autoCorr, r ∈ st.autoCorr ∨ r.slotId = s.id) ∧
    (∀ r ∈ (patientStep rp apts st s).1.valErrs, r ∈ st.valErrs ∨ r.slotId = s.id) ∧
    (∀ r ∈ (patientStep rp apts st s).1.changes, r ∈ st.changes ∨ r.slotId = s.id) := by
  unfold patientStep
  repeat' split
  all_goals
    refine ⟨?_, ?_, ?_⟩ <;> intro r hr <;>
      first
        | exact Or.inl hr
        | (rcases List.mem_append.mp hr with h | h
           · exact Or.inl h
           · rw [List.mem_singleton.mp h]
             exact Or.inr rfl)

theorem professionalStep_records (rpro : List (List Char)) (profs : List Professional)
    (genId : Nat → List Char) (st : VState) (s : Slot) :
    (∀ r ∈ (professionalStep rpro profs genId st s).1.autoCorr,
      r ∈ st.autoCorr ∨ r.slotId = s.id) ∧
    (∀ r ∈ (professionalStep rpro profs genId st s).1.valErrs,
      r ∈ st.valErrs ∨ r.slotId = s.id) ∧
    (∀ r ∈ (professionalStep rpro profs genId st s).1.changes,
      r ∈ st.changes ∨ r.slotId = s.id) := by
  unfold professionalStep
  repeat' split
  all_goals
    refine ⟨?_, ?_, ?_⟩ <;> intro r hr <;>
      first
        | exact Or.inl hr
        | (rcases List.mem_append.mp hr with h | h
           · exact Or.inl h
           · rw [List.mem_singleton.mp h]
             exact Or.inr rfl)

theorem processSlot_records (rp rpro : List (List Char)) (profs : List Professional)
    (apts : List Appointment) (genId : Nat → List Char) (st : VState) (s : Slot) :
    (∀ r ∈ (processSlot rp rpro profs apts genId st s).1.autoCorr,
      r ∈ st.autoCorr ∨ (s.isOccupied = true ∧ r.slotId = s.id)) ∧
    (∀ r ∈ (processSlot rp rpro profs apts genId st s).1.valErrs,
      r ∈ st.valErrs ∨ (s.isOccupied = true ∧ r.slotId = s.id)) ∧
    (∀ r ∈ (processSlot rp rpro profs apts genId st s).1.changes,
      r ∈ st.changes ∨ (s.isOccupied = true ∧ r.slotId = s.id)) := by
  unfold processSlot
  split
  · next hocc =>
      have hpid := patientStep_slot_id rp apts st s
      have hpr := patientStep_records rp apts st s
      have hfr := professionalStep_records rpro profs genId
        (patientStep rp apts st s).1 (patientStep rp apts st s).2
      refine ⟨?_, ?_, ?_⟩ <;> intro r hr
      · rcases hfr.1 r hr with h | h
        · rcases hpr.1 r h with h2 | h2
          · exact Or.inl h2
          · exact Or.inr ⟨hocc, h2⟩
        · rw [hpid] at h
          exact Or.inr ⟨hocc, h⟩
      · rcases hfr.2.1 r hr with h | h
        · rcases hpr.2.1 r h with h2 | h2
          · exact Or.inl h2
          · exact Or.inr ⟨hocc, h2⟩
        · rw [hpid] at h
          exact Or.inr ⟨hocc, h⟩
      · rcases hfr.2.2 r hr with h | h
        · rcases hpr.2.2 r h with h2 | h2
          · exact Or.inl h2
          · exact Or.inr ⟨hocc, h2⟩
        · rw [hpid] at h
          exact Or.inr ⟨hocc, h⟩
  · exact ⟨fun r hr => Or.inl hr, fun r hr => Or.inl hr, fun r hr => Or.inl hr⟩

theorem occupiedIds_mono_cons {x : List Char} (s : Slot) (l : List Slot)
    (h : x ∈ occupiedIds l) : x ∈ occupiedIds (s :: l) := by
  cases hs : s.isOccupied
  · rw [occupiedIds_cons_unocc l hs]
    exact h
  · rw [occupiedIds_cons_occ l hs]
    exact List.mem_cons_of_mem _ h

theorem validateSlots_length (rp rpro : List (List Char)) (profs : List Professional)
    (apts : List Appointment) (genId : Nat → List Char) :
    ∀ (l : List Slot) (st : VState),
      (validateSlots rp rpro profs apts genId st l).2.length = l.length := by
  intro l
  induction l with
  | nil => intro st; rfl
  | cons s rest ih =>
      intro st
      simp only [validateSlots, List.length_cons]
      rw [ih]

theorem validateSlots_unocc_getD (rp rpro : List (List Char)) (profs : List Professional)
    (apts : List Appointment) (genId : Nat → List Char) :
    ∀ (l : List Slot) (st : VState) (j : Nat), j < l.length →
      ((l.getD j default).isOccupied = false) →
      (validateSlots rp rpro profs apts genId st l).2.getD j default
        = l.getD j default := by
  intro l
  induction l with
  | nil => intro st j hj; simp at hj
  | cons s rest ih =>
      intro st j hj hocc
      cases j with
      | zero =>
          have hsu : s.isOccupied = false := hocc
          simp only [validateSlots]
          show (processSlot rp rpro profs apts genId st s).2 = s
          rw [processSlot_unocc rp rpro profs apts genId st s hsu]
      | succ j =>
          simp only [validateSlots]
          show (validateSlots rp rpro profs apts genId
            (processSlot rp rpro profs apts genId st s).1 rest).2.getD j default = _
          exact ih _ j (by simpa using hj) hocc

theorem validateSlots_occupiedIds (rp rpro : List (List Char)) (profs : List Professional)
    (apts : List Appointment) (genId : Nat → List Char) :
    ∀ (l : List Slot) (st : VState),
      occupiedIds (validateSlots rp rpro profs apts genId st l).2 = occupiedIds l := by
  intro l
  induction l with
  | nil => intro st; rfl
  | cons s rest ih =>
      intro st
      simp only [validateSlots]
      cases hs : s.isOccupied
      · rw [occupiedIds_cons_unocc _
          (by rw [processSlot_slot_occ]; exact hs)]
        rw [occupiedIds_cons_unocc _ hs]
        exact ih _
      · rw [occupiedIds_cons_occ _ (by rw [processSlot_slot_occ]; exact hs)]
        rw [occupiedIds_cons_occ _ hs, processSlot_slot_id, ih]

theorem validateSlots_records (rp rpro : List (List Char)) (profs : List Professional)
    (apts : List Appointment) (genId : Nat → List Char) :
    ∀ (l : List Slot) (st : VState),
      (∀ r ∈ (validateSlots rp rpro profs apts genId st l).1.autoCorr,
        r ∈ st.autoCorr ∨ r.slotId ∈ occupiedIds l) ∧
      (∀ r ∈ (validateSlots rp rpro profs apts genId st l).1.valErrs,
        r ∈ st.valErrs ∨ r.slotId ∈ occupiedIds l) ∧
      (∀ r ∈ (validateSlots rp rpro profs apts genId st l).1.changes,
        r ∈ st.changes ∨ r.slotId ∈ occupiedIds l) := by
  intro l
  induction l with
  | nil =>
      intro st
      exact ⟨fun r hr => Or.inl hr, fun r hr => Or.inl hr, fun r hr => Or.inl hr⟩
  | cons s rest ih =>
      intro st
      simp only [validateSlots]
      have hps := processSlot_records rp rpro profs apts genId st s
      have hih := ih (processSlot rp rpro profs apts genId st s).1
      refine ⟨?_, ?_, ?_⟩ <;> intro r hr
      · rcases hih.1 r hr with h | h
        · rcases hps.1 r h with h2 | ⟨hso, h2⟩
          · exact Or.inl h2
          · refine Or.inr ?_
            rw [occupiedIds_cons_occ _ hso, h2]
            exact List.mem_cons_self _ _
        · exact Or.inr (occupiedIds_mono_cons s rest h)
      · rcases hih.2.1 r hr with h | h
        · rcases hps.2.1 r h with h2 | ⟨hso, h2⟩
          · exact Or.inl h2
          · refine Or.inr ?_
            rw [occupiedIds_cons_occ _ hso, h2]
            exact List.mem_cons_self _ _
        · exact Or.inr (occupiedIds_mono_cons s rest h)
      · rcases hih.2.2 r hr with h | h
        · rcases hps.2.2 r h with h2 | ⟨hso, h2⟩
          · exact Or.inl h2
          · refine Or.inr ?_
            rw [occupiedIds_cons_occ _ hso, h2]
            exact List.mem_cons_self _ _
        · exact Or.inr (occupiedIds_mono_cons s rest h)

theorem elig1_occ {t : Slot} (h : elig1 t = true) : t.isOccupied = true := by
  unfold elig1 at h
  simp at h
  exact h.1

theorem pass1Conflicts_slotIds (sched : List Slot) :
    ∀ c ∈ pass1Conflicts sched, ∀ x ∈ c.slotIds, x ∈ occupiedIds sched := by
  intro c hc x hx
  simp only [pass1Conflicts, List.mem_filterMap] at hc
  obtain ⟨k, _, hk⟩ := hc
  split at hk
  · cases hk
    simp only [Conflict.slotIds] at hx
    obtain ⟨t, htg, hid⟩ := List.mem_map.mp hx
    obtain ⟨htf, _⟩ := List.mem_filter.mp htg
    obtain ⟨htl, hte⟩ := List.mem_filter.mp htf
    exact mem_occupiedIds.mpr ⟨t, htl, elig1_occ hte, hid⟩
  · cases hk

theorem pass1Changes_slotId (sched : List Slot) :
    ∀ ch ∈ pass1Changes sched, ch.slotId ∈ occupiedIds sched := by
  intro ch hch
  simp only [pass1Changes, List.mem_flatMap] at hch
  obtain ⟨k, _, hk⟩ := hch
  split at hk
  · obtain ⟨t, htg, hid⟩ := List.mem_map.mp hk
    obtain ⟨htf, _⟩ := List.mem_filter.mp htg
    obtain ⟨htl, hte⟩ := List.mem_filter.mp htf
    rw [← hid]
    exact mem_occupiedIds.mpr ⟨t, htl, elig1_occ hte, rfl⟩
  · simp at hk

theorem pass2ConflictOf_shape (apts : List Appointment) (t : Slot) (c : Conflict)
    (h : pass2ConflictOf apts t = some c) :
    elig1 t = true ∧ c.slotIds = [t.id] := by
  unfold pass2ConflictOf at h
  split at h
  · next hcond =>
      cases h
      exact ⟨hcond.1, rfl⟩
  · cases h

theorem pass2ChangeOf_shape (apts : List Appointment) (t : Slot) (ch : ChangeRecord)
    (h : pass2ChangeOf apts t = some ch) :
    elig1 t = true ∧ ch.slotId = t.id := by
  unfold pass2ChangeOf at h
  split at h
  · next hcond =>
      cases h
      exact ⟨hcond.1, rfl⟩
  · cases h

theorem pass2Conflicts_slotIds (apts : List Appointment) (sched : List Slot) :
    ∀ c ∈ pass2Conflicts apts sched, ∀ x ∈ c.slotIds, x ∈ occupiedIds sched := by
  intro c hc x hx
  simp only [pass2Conflicts, List.mem_filterMap] at hc
  obtain ⟨t, htl, ht⟩ := hc
  obtain ⟨hel, hids⟩ := pass2ConflictOf_shape apts t c ht
  rw [hids, List.mem_singleton] at hx
  exact mem_occupiedIds.mpr ⟨t, htl, elig1_occ hel, hx.symm⟩

theorem pass2Changes_slotId (apts : List Appointment) (sched : List Slot) :
    ∀ ch ∈ pass2Changes apts sched, ch.slotId ∈ occupiedIds sched := by
  intro ch hch
  simp only [pass2Changes, List.mem_filterMap] at hch
  obtain ⟨t, htl, ht⟩ := hch
  obtain ⟨hel, hid⟩ := pass2ChangeOf_shape apts t ch ht
  rw [hid]
  exact mem_occupiedIds.mpr ⟨t, htl, elig1_occ hel, rfl⟩

theorem pass3Conflicts_slotIds (sched : List Slot) :
    ∀ c ∈ pass3Conflicts sched, ∀ x ∈ c.slotIds, x ∈ occupiedIds sched := by
  intro c hc x hx
  simp only [pass3Conflicts, List.mem_filterMap] at hc
  obtain ⟨k, _, hk⟩ := hc
  split at hk
  · cases hk
    simp only [Conflict.slotIds] at hx
    obtain ⟨t, htg, hid⟩ := List.mem_map.mp hx
    obtain ⟨htf, _⟩ := List.mem_filter.mp htg
    obtain ⟨htl, hto⟩ := List.mem_filter.mp htf
    exact mem_occupiedIds.mpr ⟨t, htl, hto, hid⟩
  · cases hk

theorem pass3Changes_slotId (sched : List Slot) :
    ∀ ch ∈ pass3Changes sched, ch.slotId ∈ occupiedIds sched := by
  intro ch hch
  simp only [pass3Changes, List.mem_flatMap] at hch
  obtain ⟨k, _, hk⟩ := hch
  split at hk
  · obtain ⟨t, htg, hid⟩ := List.mem_map.mp hk
    obtain ⟨htf, _⟩ := List.mem_filter.mp htg
    obtain ⟨htl, hto⟩ := List.mem_filter.mp htf
    rw [← hid]
    exact mem_occupiedIds.mpr ⟨t, htl, hto, rfl⟩
  · simp at hk

theorem pass4Find_elig (profs : List Professional) (t : Slot) (p : Professional)
    (h : pass4Find profs t = some p) : elig1 t = true := by
  unfold pass4Find at h
  split at h
  · next hc => exact hc
  · cases h

theorem pass4Conflicts_slotIds (profs : List Professional) (sched : List Slot) :
    ∀ c ∈ pass4Conflicts profs sched, ∀ x ∈ c.slotIds, x ∈ occupiedIds sched := by
  intro c hc x hx
  simp only [pass4Conflicts, List.mem_filterMap] at hc
  obtain ⟨t, htl, ht⟩ := hc
  have hel : elig1 t = true := by
    unfold pass4ConflictOf at ht
    cases hft : pass4Find profs t with
    | none => rw [hft] at ht; cases ht
    | some p => exact pass4Find_elig profs t p hft
  obtain ⟨p, hp⟩ := pass4ConflictOf_some profs t c ht
  rw [hp] at hx
  simp only [Conflict.slotIds, List.mem_singleton] at hx
  exact mem_occupiedIds.mpr ⟨t, htl, elig1_occ hel, hx.symm⟩

theorem pass4ChangeOf_shape (profs : List Professional) (t : Slot) (ch : ChangeRecord)
    (h : pass4ChangeOf profs t = some ch) : elig1 t = true ∧ ch.slotId = t.id := by
  unfold pass4ChangeOf at h
  cases hft : pass4Find profs t with
  | none => rw [hft] at h; cases h
  | some p =>
      simp only [hft] at h
      by_cases hp : p.inactive = true
      · rw [if_pos hp] at h
        injection h with h2
        rw [← h2]
        exact ⟨pass4Find_elig profs t p hft, rfl⟩
      · rw [if_neg hp] at h
        cases h

theorem pass4Changes_slotId (profs : List Professional) (sched : List Slot) :
    ∀ ch ∈ pass4Changes profs sched, ch.slotId ∈ occupiedIds sched := by
  intro ch hch
  simp only [pass4Changes, List.mem_filterMap] at hch
  obtain ⟨t, htl, ht⟩ := hch
  obtain ⟨hel, hid⟩ := pass4ChangeOf_shape profs t ch ht
  rw [hid]
  exact mem_occupiedIds.mpr ⟨t, htl, elig1_occ hel, rfl⟩

/-- C9: a slot with `isOccupied = false` is left completely unchanged by a
full run, and no auto-correction, validation error, suggested change or
conflict produced by the run carries its id (assuming, per the data model's
id-uniqueness invariant, that no occupied slot shares its id). -/
theorem claim9_unoccupied_untouched (genId : Nat → List Char) (d : RoomImportData)
    (profs : List Professional) (apts : List Appointment) (i : Nat)
    (hi : i < d.schedule.length)
    (hocc : (d.schedule.getD i default).isOccupied = false)
    (hid : ∀ t ∈ d.schedule, t.isOccupied = true →
      t.id ≠ (d.schedule.getD i default).id) :
    ((processImportedData genId d profs apts).schedule.getD i default
      = d.schedule.getD i default) ∧
    (∀ a ∈ (processImportedData genId d profs apts).autoCorrections,
      a.slotId ≠ (d.schedule.getD i default).id) ∧
    (∀ v ∈ (processImportedData genId d profs apts).validationErrors,
      v.slotId ≠ (d.schedule.getD i default).id) ∧
    (∀ ch ∈ (processImportedData genId d profs apts).suggestedChanges,
      ch.slotId ≠ (d.schedule.getD i default).id) ∧
    (∀ c ∈ (processImportedData genId d profs apts).conflicts,
      (d.schedule.getD i default).id ∉ c.slotIds) := by
  have hnotin : (d.schedule.getD i default).id ∉ occupiedIds d.schedule := by
    intro hin
    obtain ⟨t, htl, hto, htid⟩ := mem_occupiedIds.mp hin
    exact hid t htl hto htid
  have hS1ids : occupiedIds (sched1Of genId d profs apts) = occupiedIds d.schedule :=
    validateSlots_occupiedIds (registeredPatientsOf apts)
      (registeredProfessionalsOf profs) profs apts genId d.schedule _
  have hS2ids : occupiedIds (sched2Of genId d profs apts)
      = occupiedIds (sched1Of genId d profs apts) :=
    occupiedIds_map _ (pass1Mark_id _) (pass1Mark_isOccupied _) _
  have hS3ids : occupiedIds (sched3Of genId d profs apts)
      = occupiedIds (sched2Of genId d profs apts) :=
    occupiedIds_map _ (pass2Mark_id _) (pass2Mark_isOccupied _) _
  have hS4ids : occupiedIds (sched4Of genId d profs apts)
      = occupiedIds (sched3Of genId d profs apts) :=
    occupiedIds_map _ (pass3Mark_id _) (pass3Mark_isOccupied _) _
  have h1d : occupiedIds (sched1Of genId d profs apts) = occupiedIds d.schedule := hS1ids
  have h2d : occupiedIds (sched2Of genId d profs apts) = occupiedIds d.schedule :=
    hS2ids.trans h1d
  have h3d : occupiedIds (sched3Of genId d profs apts) = occupiedIds d.schedule :=
    hS3ids.trans h2d
  have h4d : occupiedIds (sched4Of genId d profs apts) = occupiedIds d.schedule :=
    hS4ids.trans h3d
  have hvrec := validateSlots_records (registeredPatientsOf apts)
    (registeredProfessionalsOf profs) profs apts genId d.schedule
    { newProfs := d.newProfessionals, autoCorr := [], valErrs := [], changes := [],
      counter := 0 }
  have hlen1 : i < (sched1Of genId d profs apts).length := by
    have := validateSlots_length (registeredPatientsOf apts)
      (registeredProfessionalsOf profs) profs apts genId d.schedule
      { newProfs := d.newProfessionals, autoCorr := [], valErrs := [], changes := [],
        counter := 0 }
    show i < (validateSlots (registeredPatientsOf apts)
      (registeredProfessionalsOf profs) profs apts genId _ d.schedule).2.length
    rw [this]
    exact hi
  have hg1 : (sched1Of genId d profs apts).getD i default = d.schedule.getD i default :=
    validateSlots_unocc_getD (registeredPatientsOf apts)
      (registeredProfessionalsOf profs) profs apts genId d.schedule _ i hi hocc
  refine ⟨?_, ?_, ?_, ?_, ?_⟩
  · have hsched_run : (processImportedData genId d profs apts).schedule
        = ((((sched1Of genId d profs apts).map
            (pass1Mark (sched1Of genId d profs apts))).map (pass2Mark apts)).map
            (pass3Mark (sched3Of genId d profs apts))).map (pass4Mark profs) := rfl
    have l1 : i < ((sched1Of genId d profs apts).map
        (pass1Mark (sched1Of genId d profs apts))).length := by
      rw [List.length_map]; exact hlen1
    have l2 : i < (((sched1Of genId d profs apts).map
        (pass1Mark (sched1Of genId d profs apts))).map (pass2Mark apts)).length := by
      rw [List.length_map]; exact l1
    have l3 : i < ((((sched1Of genId d profs apts).map
        (pass1Mark (sched1Of genId d profs apts))).map (pass2Mark apts)).map
        (pass3Mark (sched3Of genId d profs apts))).length := by
      rw [List.length_map]; exact l2
    rw [hsched_run, getD_map_lt (pass4Mark profs) _ i l3 default default,
      getD_map_lt (pass3Mark (sched3Of genId d profs apts)) _ i l2 default default,
      getD_map_lt (pass2Mark apts) _ i l1 default default,
      getD_map_lt (pass1Mark (sched1Of genId d profs apts)) _ i hlen1 default default,
      hg1, pass1Mark_unocc _ _ hocc, pass2Mark_unocc _ _ hocc,
      pass3Mark_unocc _ _ hocc, pass4Mark_unocc _ _ hocc]
  · intro a ha
    have hmem : a ∈ (validateOut genId d profs apts).1.autoCorr := ha
    rcases hvrec.1 a hmem with h | h
    · simp at h
    · intro heq
      rw [heq] at h
      exact hnotin h
  · intro v hv
    have hmem : v ∈ (validateOut genId d profs apts).1.valErrs := hv
    rcases hvrec.2.1 v hmem with h | h
    · simp at h
    · intro heq
      rw [heq] at h
      exact hnotin h
  · intro ch hch
    have hmem : ch ∈ (validateOut genId d profs apts).1.changes ++
        pass1Changes (sched1Of genId d profs apts) ++
        pass2Changes apts (sched2Of genId d profs apts) ++
        pass3Changes (sched3Of genId d profs apts) ++
        pass4Changes profs (sched4Of genId d profs apts) := hch
    intro heq
    rcases List.mem_append.mp hmem with hm | hm
    · rcases List.mem_append.mp hm with hm2 | hm2
      · rcases List.mem_append.mp hm2 with hm3 | hm3
        · rcases List.mem_append.mp hm3 with hm4 | hm4
          · rcases hvrec.2.2 ch hm4 with h | h
            · simp at h
            · rw [heq] at h
              exact hnotin h
          · have := pass1Changes_slotId _ ch hm4
            rw [heq, h1d] at this
            exact hnotin this
        · have := pass2Changes_slotId apts _ ch hm3
          rw [heq, h2d] at this
          exact hnotin this
      · have := pass3Changes_slotId _ ch hm2
        rw [heq, h3d] at this
        exact hnotin this
    · have := pass4Changes_slotId profs _ ch hm
      rw [heq, h4d] at this
      exact hnotin this
  · intro c hc
    have hmem : c ∈ pass1Conflicts (sched1Of genId d profs apts) ++
        pass2Conflicts apts (sched2Of genId d profs apts) ++
        pass3Conflicts (sched3Of genId d profs apts) ++
        pass4Conflicts profs (sched4Of genId d profs apts) := hc
    intro hin
    rcases List.mem_append.mp hmem with hm | hm
    · rcases List.mem_append.mp hm with hm2 | hm2
      · rcases List.mem_append.mp hm2 with hm3 | hm3
        · have := pass1Conflicts_slotIds _ c hm3 _ hin
          rw [h1d] at this
          exact hnotin this
        · have := pass2Conflicts_slotIds apts _ c hm3 _ hin
          rw [h2d] at this
          exact hnotin this
      · have := pass3Conflicts_slotIds _ c hm2 _ hin
        rw [h3d] at this
        exact hnotin this
    · have := pass4Conflicts_slotIds profs _ c hm _ hin
      rw [h4d] at this
      exact hnotin this

/-- An unoccupied slot. -/
def wSlotUnocc : Slot := { wSlotA with id := str "s9", isOccupied := false }

/-- Import data with one occupied and one unoccupied slot. -/
def wImport9 : RoomImportData :=
  { schedule := [wSlotA, wSlotUnocc], newProfessionals := [], updatedAppointments := [] }

/-- C9 witness: the unoccupied slot at position 1 is untouched and no
conflict carries its id. -/
theorem claim9_witness :
    (processImportedData wGen wImport9 [wProfActive] []).schedule.getD 1 default
      = wImport9.schedule.getD 1 default ∧
    ∀ c ∈ (processImportedData wGen wImport9 [wProfActive] []).conflicts,
      (wImport9.schedule.getD 1 default).id ∉ Conflict.slotIds c :=
  have h := claim9_unoccupied_untouched wGen wImport9 [wProfActive] [] 1 (by decide)
    (by decide) (by decide)
  ⟨h.1, h.2.2.2.2⟩
